import Mathlib

/-!
# goplusplus: the interpolation-literal lowering pass

A shallow embedding of `src/cmd/goplusplus/goplusplus.go`: the walker
(`transpileDecl`, `transpileExprs`, `transpileExpr`, `transpileStmts`,
`transpileStmt`), the lowering of an `InterpLit` to a `fmt.Sprintf` call,
`addImport` (the registrar of imports), and the declaration loop of
`processFile`.

The Go code rewrites a pointer graph in place. Here a syntax tree is a value,
every walker function returns the tree that the memory holds once the call has
returned, and a nil-pointer dereference (a run-time panic, which ends the
program) is the result `none`.
-/

namespace Goplusplus

/-! ## The formatting library, as far as the source uses it -/

namespace fmt

/-- Rendering of the `EXTRA` note that `Sprintf` appends for string operands
no verb consumed. -/
def extra : List String → List String
  | [] => []
  | a :: rest => ("string=" ++ a) :: extra rest

/-- The scanner of `fmt.Sprintf` over the characters of the format, for the
verbs the source uses on string operands: `%s` prints the next operand, `%%`
prints a percent sign, any other character is copied. A `%s` with no operand
left prints `%!s(MISSING)`, operands left at the end print `%!(EXTRA ...)`. -/
def sprintfAux : List Char → List String → List Char
  | '%' :: 's' :: rest, a :: args => a.data ++ sprintfAux rest args
  | '%' :: 's' :: rest, [] => "%!s(MISSING)".data ++ sprintfAux rest []
  | '%' :: '%' :: rest, args => '%' :: sprintfAux rest args
  | c :: rest, args => c :: sprintfAux rest args
  | [], [] => []
  | [], a :: args => ("%!(EXTRA " ++ ", ".intercalate (extra (a :: args)) ++ ")").data

/-- `fmt.Sprintf(format, a...)` on string operands. -/
def Sprintf (format : String) (a : List String) : String :=
  ⟨sprintfAux format.data a⟩

/-- `fmt.Sprint(a...)` on string operands: the operands in their default
format, one after the other. Sprint puts a space between two operands only
when neither is a string, so none is added here; it has no format argument. -/
def Sprint (a : List String) : String :=
  String.join a

end fmt

/-! ## The syntax tree (`go/ast`, extended with `InterpLit`) -/

/-- The `token.Token` values that occur in the trees below. -/
inductive Token where
  | INT
  | STRING
  | ADD
  | SUB
  | NOT
  | EQL
  | ASSIGN
  | DEFINE
  | VAR
  | IMPORT

mutual
/-- An `ast.Expr` interface value. `nil` is the nil interface, which is what
an absent optional slot holds. A `Body` is a `*ast.BlockStmt`: `none` is the
nil pointer and `some l` a block whose `List` is `l`. Fields that hold neither
a statement nor a value expression (positions, the `Type` of a function
literal) are left out. -/
inductive Expr where
  | nil
  | Ident (Name : String)
  | BasicLit (Kind : Token) (Value : String)
  | FuncLit (Body : Option (List Stmt))
  | CompositeLit (Typ : Expr) (Elts : List Expr)
  | ParenExpr (X : Expr)
  | SelectorExpr (X : Expr) (Sel : String)
  | IndexExpr (X : Expr) (Index : Expr)
  | CallExpr (Fun : Expr) (Args : List Expr)
  | UnaryExpr (Op : Token) (X : Expr)
  | BinaryExpr (X : Expr) (Op : Token) (Y : Expr)
  | InterpLit (Segments : List Segment)
/-- One segment of an interpolation literal, with the two fields the source
reads: `X` is nil for a text segment, whose text is then in `Fmt`; otherwise
`X` is the embedded expression and `Fmt` its directive (empty when there is
none). -/
inductive Segment where
  | mk (X : Expr) (Fmt : String)
/-- An `ast.Stmt` interface value; `nil` is the nil interface. For `GoStmt`
and `DeferStmt` the two fields are those of the statement's `Call`. -/
inductive Stmt where
  | nil
  | DeclStmt (Decl : Decl)
  | ExprStmt (X : Expr)
  | SendStmt (Chan : Expr) (Value : Expr)
  | AssignStmt (Lhs : List Expr) (Tok : Token) (Rhs : List Expr)
  | GoStmt (Fun : Expr) (Args : List Expr)
  | DeferStmt (Fun : Expr) (Args : List Expr)
  | ReturnStmt (Results : List Expr)
  | BlockStmt (list : List Stmt)
  | IfStmt (Init : Stmt) (Cond : Expr) (Body : Option (List Stmt)) (Else : Stmt)
  | SwitchStmt (Init : Stmt) (Tag : Expr) (Body : Option (List Stmt))
  | CaseClause (list : List Expr) (Body : List Stmt)
  | TypeSwitchStmt (Init : Stmt) (Assign : Stmt) (Body : Option (List Stmt))
  | SelectStmt (Body : Option (List Stmt))
  | CommClause (Comm : Stmt) (Body : List Stmt)
  | ForStmt (Init : Stmt) (Cond : Expr) (Post : Stmt) (Body : Option (List Stmt))
  | RangeStmt (Key : Expr) (Value : Expr) (X : Expr) (Body : Option (List Stmt))
/-- An `ast.Decl`. The `Body` of a `FuncDecl` is nil for a function declared
without a body. -/
inductive Decl where
  | FuncDecl (Name : String) (Body : Option (List Stmt))
  | GenDecl (Tok : Token) (Specs : List Spec)
/-- An `ast.Spec` of a `GenDecl`. -/
inductive Spec where
  | ImportSpec (Name : Option String) (Path : String)
  | ValueSpec (Names : List String) (Values : List Expr)
  | TypeSpec (Name : String) (Typ : Expr)
end

/-- An `*ast.ImportSpec` of the import table. `Name` is the `*ast.Ident` of the
local name (nil when the import has none), `Path` the `*ast.BasicLit` of the
path (nil in the entry `addImport` builds). -/
structure ImportSpec where
  Name : Option String
  Path : Option String

/-- The part of `ast.File` the program touches. -/
structure File where
  Decls : List Decl
  Imports : List ImportSpec

/-- The `s.X != nil` test of the source. -/
def Expr.isNil : Expr → Bool
  | .nil => true
  | _ => false

/-- Field `X` of a segment. -/
def Segment.X : Segment → Expr
  | .mk x _ => x

/-- Field `Fmt` of a segment. -/
def Segment.Fmt : Segment → String
  | .mk _ f => f

/-! ## The import registrar -/

/-- The loop of `addImport`: `some true` when an entry named `imp` is found
(the function returns there), `some false` when the range ends without one,
`none` when `i.Name.Name` dereferences a nil `Name`. -/
def findImport (imp : String) : List ImportSpec → Option Bool
  | [] => some false
  | i :: rest =>
    match i.Name with
    | none => none
    | some name => if name = imp then some true else findImport imp rest

/-- `(t *transpiler) addImport(imp)`, on the import table of `t.file`. -/
def addImport (imports : List ImportSpec) (imp : String) : Option (List ImportSpec) :=
  match findImport imp imports with
  | none => none
  | some true => some imports
  | some false => some (imports ++ [{ Name := some imp, Path := none }])

/-! ## Literal lowering -/

/-- One turn of the loop over `u.Segments` in the `InterpLit` case of
`transpileExpr`, on the pair `(fmtstr, args)`. -/
def segmentStep (acc : String × List Expr) (s : Segment) : String × List Expr :=
  if !s.X.isNil then
    ((if s.Fmt = "" then fmt.Sprintf "%s%%v" [acc.1]
      else fmt.Sprint ["%s%%%s", acc.1, s.Fmt]),
     acc.2 ++ [s.X])
  else
    (fmt.Sprintf "%s%s" [acc.1, s.Fmt], acc.2)

/-- The body of the `InterpLit` case of `transpileExpr`: the value written to
`*expr`. `args` starts as `make([]ast.Expr, 1, ...)`, one nil element, which
`args[0] = ...` overwrites after the loop. -/
def lowerInterpLit (segments : List Segment) : Expr :=
  let r := segments.foldl segmentStep ("", [Expr.nil])
  .CallExpr (.BasicLit .STRING "fmt.Sprintf") (r.2.set 0 (.BasicLit .STRING r.1))

/-! ## The walker -/

/-- The slice element after one turn of
`for _, v := range exprs { t.transpileExpr(&v) }`, where `v` is the element
before the turn and `w` is what the loop variable holds after the call. The
loop variable is a copy of the element, so the `*expr = ...` of the `InterpLit`
case is written to the copy and the element still refers to the literal, which
the call does not modify. In every other case nothing is written through
`expr`, and the node the element refers to is the one that was modified. -/
def rangeElem (v w : Expr) : Expr :=
  match v with
  | .InterpLit _ => v
  | _ => w

mutual
/-- `(t *transpiler) transpileDecl(decl)`: the declaration afterwards. The
loop over `u.Body.List` is the loop of `transpileStmts`, the loop over
`k.Values` that of `transpileExprs`. -/
def transpileDecl : Decl → Option Decl
  | .FuncDecl name (some list) => do
    let list' ← transpileStmts list
    pure (.FuncDecl name (some list'))
  | .FuncDecl _ none => none
  | .GenDecl tok specs => do
    let specs' ← transpileSpecs specs
    pure (.GenDecl tok specs')
/-- The loop `for _, spec := range u.Specs` of `transpileDecl`. -/
def transpileSpecs : List Spec → Option (List Spec)
  | [] => some []
  | .ValueSpec names values :: rest => do
    let values' ← transpileExprs values
    let rest' ← transpileSpecs rest
    pure (.ValueSpec names values' :: rest')
  | spec :: rest => do
    let rest' ← transpileSpecs rest
    pure (spec :: rest')
/-- `(t *transpiler) transpileExprs(exprs)`: the slice afterwards. -/
def transpileExprs : List Expr → Option (List Expr)
  | [] => some []
  | v :: rest => do
    let w ← transpileExpr v
    let rest' ← transpileExprs rest
    pure (rangeElem v w :: rest')
/-- `(t *transpiler) transpileExpr(expr)`: what `*expr` holds afterwards. -/
def transpileExpr : Expr → Option Expr
  | .CallExpr fn args => do
    let args' ← transpileExprs args
    pure (.CallExpr fn args')
  | .InterpLit segments => some (lowerInterpLit segments)
  | .FuncLit (some list) => do
    let list' ← transpileStmts list
    pure (.FuncLit (some list'))
  | .FuncLit none => none
  | e => some e
/-- `(t *transpiler) transpileStmts(stmts)`: the slice afterwards.
`transpileStmt` never writes through its argument, so each element is the
statement it referred to, as modified. -/
def transpileStmts : List Stmt → Option (List Stmt)
  | [] => some []
  | v :: rest => do
    let v' ← transpileStmt v
    let rest' ← transpileStmts rest
    pure (v' :: rest')
/-- `(t *transpiler) transpileStmt(stmt)`: the statement afterwards. Where the
source evaluates `u.Body.List` on a nil `Body` the result is `none`. -/
def transpileStmt : Stmt → Option Stmt
  | .DeclStmt d => do
    let d' ← transpileDecl d
    pure (.DeclStmt d')
  | .ExprStmt x => do
    let x' ← transpileExpr x
    pure (.ExprStmt x')
  | .SendStmt ch value => do
    let value' ← transpileExpr value
    pure (.SendStmt ch value')
  | .AssignStmt lhs tok rhs => do
    let rhs' ← transpileExprs rhs
    pure (.AssignStmt lhs tok rhs')
  | .GoStmt fn args => do
    let args' ← transpileExprs args
    let fn' ← transpileExpr fn
    pure (.GoStmt fn' args')
  | .DeferStmt fn args => do
    let args' ← transpileExprs args
    let fn' ← transpileExpr fn
    pure (.DeferStmt fn' args')
  | .ReturnStmt results => do
    let results' ← transpileExprs results
    pure (.ReturnStmt results')
  | .BlockStmt list => do
    let list' ← transpileStmts list
    pure (.BlockStmt list')
  | .IfStmt init cond (some list) els => do
    let init' ← transpileStmt init
    let cond' ← transpileExpr cond
    let els' ← transpileStmt els
    let list' ← transpileStmts list
    pure (.IfStmt init' cond' (some list') els')
  | .IfStmt _ _ none _ => none
  | .SwitchStmt init tag (some list) => do
    let init' ← transpileStmt init
    let tag' ← transpileExpr tag
    let list' ← transpileStmts list
    pure (.SwitchStmt init' tag' (some list'))
  | .SwitchStmt _ _ none => none
  | .CaseClause list body => do
    let list' ← transpileExprs list
    let body' ← transpileStmts body
    pure (.CaseClause list' body')
  | .TypeSwitchStmt init assign (some list) => do
    let init' ← transpileStmt init
    let assign' ← transpileStmt assign
    let list' ← transpileStmts list
    pure (.TypeSwitchStmt init' assign' (some list'))
  | .TypeSwitchStmt _ _ none => none
  | .SelectStmt (some list) => do
    let list' ← transpileStmts list
    pure (.SelectStmt (some list'))
  | .SelectStmt none => none
  | .ForStmt init cond post (some list) => do
    let init' ← transpileStmt init
    let cond' ← transpileExpr cond
    let list' ← transpileStmts list
    let post' ← transpileStmt post
    pure (.ForStmt init' cond' post' (some list'))
  | .ForStmt _ _ _ none => none
  | .RangeStmt key value x (some list) => do
    let list' ← transpileStmts list
    pure (.RangeStmt key value x (some list'))
  | .RangeStmt _ _ _ none => none
  | s => some s
end

/-- The loop `for _, d := range file.Decls { t.transpileDecl(&d) }` of
`processFile`. -/
def transpileDecls : List Decl → Option (List Decl)
  | [] => some []
  | d :: rest => do
    let d' ← transpileDecl d
    let rest' ← transpileDecls rest
    pure (d' :: rest')

/-- The pass of `processFile` over a parsed file: `t := &transpiler{file}`
followed by the loop over `file.Decls`. Reading, parsing and printing are
outside the model. No walker function calls `addImport` or otherwise touches
`t.file`, so the import table is the one the parser built. -/
def processFile (file : File) : Option File := do
  let decls' ← transpileDecls file.Decls
  pure { Decls := decls', Imports := file.Imports }

/-! ## Predicates on trees -/

mutual
/-- Whether an `InterpLit` node occurs anywhere in the expression. -/
def Expr.hasInterp : Expr → Bool
  | .FuncLit (some list) => hasInterpStmts list
  | .CompositeLit typ elts => typ.hasInterp || hasInterpExprs elts
  | .ParenExpr x => x.hasInterp
  | .SelectorExpr x _ => x.hasInterp
  | .IndexExpr x index => x.hasInterp || index.hasInterp
  | .CallExpr fn args => fn.hasInterp || hasInterpExprs args
  | .UnaryExpr _ x => x.hasInterp
  | .BinaryExpr x _ y => x.hasInterp || y.hasInterp
  | .InterpLit _ => true
  | .FuncLit none => false
  | .nil => false
  | .Ident _ => false
  | .BasicLit _ _ => false
/-- Whether an `InterpLit` occurs in some expression of the list. -/
def hasInterpExprs : List Expr → Bool
  | [] => false
  | e :: rest => e.hasInterp || hasInterpExprs rest
/-- Whether an `InterpLit` occurs in the embedded expression of some segment. -/
def hasInterpSegments : List Segment → Bool
  | [] => false
  | .mk x _ :: rest => x.hasInterp || hasInterpSegments rest
/-- Whether an `InterpLit` node occurs anywhere in the statement. -/
def Stmt.hasInterp : Stmt → Bool
  | .nil => false
  | .DeclStmt d => d.hasInterp
  | .ExprStmt x => x.hasInterp
  | .SendStmt ch value => ch.hasInterp || value.hasInterp
  | .AssignStmt lhs _ rhs => hasInterpExprs lhs || hasInterpExprs rhs
  | .GoStmt fn args => fn.hasInterp || hasInterpExprs args
  | .DeferStmt fn args => fn.hasInterp || hasInterpExprs args
  | .ReturnStmt results => hasInterpExprs results
  | .BlockStmt list => hasInterpStmts list
  | .IfStmt init cond (some list) els =>
    init.hasInterp || cond.hasInterp || hasInterpStmts list || els.hasInterp
  | .IfStmt init cond none els => init.hasInterp || cond.hasInterp || els.hasInterp
  | .SwitchStmt init tag (some list) => init.hasInterp || tag.hasInterp || hasInterpStmts list
  | .SwitchStmt init tag none => init.hasInterp || tag.hasInterp
  | .CaseClause list body => hasInterpExprs list || hasInterpStmts body
  | .TypeSwitchStmt init assign (some list) =>
    init.hasInterp || assign.hasInterp || hasInterpStmts list
  | .TypeSwitchStmt init assign none => init.hasInterp || assign.hasInterp
  | .SelectStmt (some list) => hasInterpStmts list
  | .SelectStmt none => false
  | .CommClause comm body => comm.hasInterp || hasInterpStmts body
  | .ForStmt init cond post (some list) =>
    init.hasInterp || cond.hasInterp || post.hasInterp || hasInterpStmts list
  | .ForStmt init cond post none => init.hasInterp || cond.hasInterp || post.hasInterp
  | .RangeStmt key value x (some list) =>
    key.hasInterp || value.hasInterp || x.hasInterp || hasInterpStmts list
  | .RangeStmt key value x none => key.hasInterp || value.hasInterp || x.hasInterp
/-- Whether an `InterpLit` occurs in some statement of the list. -/
def hasInterpStmts : List Stmt → Bool
  | [] => false
  | s :: rest => s.hasInterp || hasInterpStmts rest
/-- Whether an `InterpLit` node occurs anywhere in the declaration. -/
def Decl.hasInterp : Decl → Bool
  | .FuncDecl _ (some list) => hasInterpStmts list
  | .FuncDecl _ none => false
  | .GenDecl _ specs => hasInterpSpecs specs
/-- Whether an `InterpLit` occurs in some spec of the list. -/
def hasInterpSpecs : List Spec → Bool
  | [] => false
  | .ValueSpec _ values :: rest => hasInterpExprs values || hasInterpSpecs rest
  | .TypeSpec _ typ :: rest => typ.hasInterp || hasInterpSpecs rest
  | .ImportSpec _ _ :: rest => hasInterpSpecs rest
end

/-- Whether an `InterpLit` occurs in some declaration of the list. -/
def hasInterpDecls : List Decl → Bool
  | [] => false
  | d :: rest => d.hasInterp || hasInterpDecls rest

/-- Whether an `InterpLit` node is reachable from a declaration of the file. -/
def File.hasInterp (file : File) : Bool :=
  hasInterpDecls file.Decls

mutual
/-- Whether every `Body` pointer in the expression is non-nil. -/
def Expr.bodies : Expr → Bool
  | .FuncLit (some list) => bodiesStmts list
  | .FuncLit none => false
  | .CompositeLit typ elts => typ.bodies && bodiesExprs elts
  | .ParenExpr x => x.bodies
  | .SelectorExpr x _ => x.bodies
  | .IndexExpr x index => x.bodies && index.bodies
  | .CallExpr fn args => fn.bodies && bodiesExprs args
  | .UnaryExpr _ x => x.bodies
  | .BinaryExpr x _ y => x.bodies && y.bodies
  | .InterpLit segments => bodiesSegments segments
  | .nil => true
  | .Ident _ => true
  | .BasicLit _ _ => true
/-- Whether every `Body` pointer in the expressions of the list is non-nil. -/
def bodiesExprs : List Expr → Bool
  | [] => true
  | e :: rest => e.bodies && bodiesExprs rest
/-- Whether every `Body` pointer in the embedded expressions is non-nil. -/
def bodiesSegments : List Segment → Bool
  | [] => true
  | .mk x _ :: rest => x.bodies && bodiesSegments rest
/-- Whether every `Body` pointer in the statement is non-nil. -/
def Stmt.bodies : Stmt → Bool
  | .nil => true
  | .DeclStmt d => d.bodies
  | .ExprStmt x => x.bodies
  | .SendStmt ch value => ch.bodies && value.bodies
  | .AssignStmt lhs _ rhs => bodiesExprs lhs && bodiesExprs rhs
  | .GoStmt fn args => fn.bodies && bodiesExprs args
  | .DeferStmt fn args => fn.bodies && bodiesExprs args
  | .ReturnStmt results => bodiesExprs results
  | .BlockStmt list => bodiesStmts list
  | .IfStmt init cond (some list) els =>
    init.bodies && cond.bodies && bodiesStmts list && els.bodies
  | .IfStmt _ _ none _ => false
  | .SwitchStmt init tag (some list) => init.bodies && tag.bodies && bodiesStmts list
  | .SwitchStmt _ _ none => false
  | .CaseClause list body => bodiesExprs list && bodiesStmts body
  | .TypeSwitchStmt init assign (some list) => init.bodies && assign.bodies && bodiesStmts list
  | .TypeSwitchStmt _ _ none => false
  | .SelectStmt (some list) => bodiesStmts list
  | .SelectStmt none => false
  | .CommClause comm body => comm.bodies && bodiesStmts body
  | .ForStmt init cond post (some list) =>
    init.bodies && cond.bodies && post.bodies && bodiesStmts list
  | .ForStmt _ _ _ none => false
  | .RangeStmt key value x (some list) =>
    key.bodies && value.bodies && x.bodies && bodiesStmts list
  | .RangeStmt _ _ _ none => false
/-- Whether every `Body` pointer in the statements of the list is non-nil. -/
def bodiesStmts : List Stmt → Bool
  | [] => true
  | s :: rest => s.bodies && bodiesStmts rest
/-- Whether every `Body` pointer in the declaration is non-nil. -/
def Decl.bodies : Decl → Bool
  | .FuncDecl _ (some list) => bodiesStmts list
  | .FuncDecl _ none => false
  | .GenDecl _ specs => bodiesSpecs specs
/-- Whether every `Body` pointer in the specs of the list is non-nil. -/
def bodiesSpecs : List Spec → Bool
  | [] => true
  | .ValueSpec _ values :: rest => bodiesExprs values && bodiesSpecs rest
  | .TypeSpec _ typ :: rest => typ.bodies && bodiesSpecs rest
  | .ImportSpec _ _ :: rest => bodiesSpecs rest
end

/-- Whether every `Body` pointer in the declarations of the list is non-nil. -/
def bodiesDecls : List Decl → Bool
  | [] => true
  | d :: rest => d.bodies && bodiesDecls rest

/-- Whether every `Body` pointer of the file is non-nil: every function
declaration, function literal and compound statement has its block. -/
def File.bodies (file : File) : Bool :=
  bodiesDecls file.Decls

/-- The embedded expressions of the expression segments, in order. -/
def embedded : List Segment → List Expr
  | [] => []
  | s :: rest => if s.X.isNil then embedded rest else s.X :: embedded rest

/-- The number of expression segments (segments whose `X` is present). -/
def exprSegments (segments : List Segment) : Nat :=
  (segments.filter (fun s => !s.X.isNil)).length

/-- The `Fun` of the call the lowering builds. -/
def sprintfFun : Expr :=
  .BasicLit .STRING "fmt.Sprintf"

mutual
/-- Whether every `InterpLit` of the declaration sits where the walker both
arrives and writes: see `Expr.covered`. -/
def Decl.covered : Decl → Bool
  | .FuncDecl _ (some list) => coveredStmts list
  | .FuncDecl _ none => false
  | .GenDecl _ specs => coveredSpecs specs
/-- The specs of a `GenDecl`: the initializers of a value spec are elements of
a list slot. -/
def coveredSpecs : List Spec → Bool
  | [] => true
  | .ValueSpec _ values :: rest => coveredExprs values && coveredSpecs rest
  | .TypeSpec _ typ :: rest => !typ.hasInterp && coveredSpecs rest
  | .ImportSpec _ _ :: rest => coveredSpecs rest
/-- The elements of a list slot (call arguments, results, right-hand sides,
match lists, initializers): none may itself be an `InterpLit`. -/
def coveredExprs : List Expr → Bool
  | [] => true
  | v :: rest => Expr.covered false v && coveredExprs rest
/-- An expression the walker is called on; `slot` says whether the call is on
a field of the parent node (a single-expression slot) rather than on the loop
variable of a list. An `InterpLit` is covered only in such a field, and then
its embedded expressions must hold no further `InterpLit`. The walker goes on
into the arguments of a call and the body of a function literal (which must be
present); every other part must hold no `InterpLit` at all. -/
def Expr.covered : Bool → Expr → Bool
  | _, .CallExpr fn args => !fn.hasInterp && coveredExprs args
  | slot, .InterpLit segments => slot && !hasInterpSegments segments
  | _, .FuncLit (some list) => coveredStmts list
  | _, .FuncLit none => false
  | _, .nil => true
  | _, .Ident _ => true
  | _, .BasicLit _ _ => true
  | _, .CompositeLit typ elts => !typ.hasInterp && !hasInterpExprs elts
  | _, .ParenExpr x => !x.hasInterp
  | _, .SelectorExpr x _ => !x.hasInterp
  | _, .IndexExpr x index => !x.hasInterp && !index.hasInterp
  | _, .UnaryExpr _ x => !x.hasInterp
  | _, .BinaryExpr x _ y => !x.hasInterp && !y.hasInterp
/-- The statements of a list the walker ranges over. -/
def coveredStmts : List Stmt → Bool
  | [] => true
  | s :: rest => s.covered && coveredStmts rest
/-- A statement the walker is called on: the slots it passes on are covered,
the bodies it dereferences are present, and the parts it does not visit hold
no `InterpLit`. -/
def Stmt.covered : Stmt → Bool
  | .nil => true
  | .DeclStmt d => d.covered
  | .ExprStmt x => Expr.covered true x
  | .SendStmt ch value => !ch.hasInterp && Expr.covered true value
  | .AssignStmt lhs _ rhs => !hasInterpExprs lhs && coveredExprs rhs
  | .GoStmt fn args => Expr.covered true fn && coveredExprs args
  | .DeferStmt fn args => Expr.covered true fn && coveredExprs args
  | .ReturnStmt results => coveredExprs results
  | .BlockStmt list => coveredStmts list
  | .IfStmt init cond (some list) els =>
    init.covered && Expr.covered true cond && coveredStmts list && els.covered
  | .IfStmt _ _ none _ => false
  | .SwitchStmt init tag (some list) =>
    init.covered && Expr.covered true tag && coveredStmts list
  | .SwitchStmt _ _ none => false
  | .CaseClause list body => coveredExprs list && coveredStmts body
  | .TypeSwitchStmt init assign (some list) =>
    init.covered && assign.covered && coveredStmts list
  | .TypeSwitchStmt _ _ none => false
  | .SelectStmt (some list) => coveredStmts list
  | .SelectStmt none => false
  | .CommClause comm body => !comm.hasInterp && !hasInterpStmts body
  | .ForStmt init cond post (some list) =>
    init.covered && Expr.covered true cond && post.covered && coveredStmts list
  | .ForStmt _ _ _ none => false
  | .RangeStmt key value x (some list) =>
    !key.hasInterp && !value.hasInterp && !x.hasInterp && coveredStmts list
  | .RangeStmt _ _ _ none => false
end

/-- The declarations of a file are all covered. -/
def coveredDecls : List Decl → Bool
  | [] => true
  | d :: rest => d.covered && coveredDecls rest

/-- Every `InterpLit` of the file directly occupies a single-expression slot
that the walker reaches from a top-level declaration (the expression of an
expression statement, the value of a send, the condition of an if or for, the
tag of a switch, the function of a go or defer call), its embedded expressions
hold no `InterpLit`, and every body on the walker's way is present. -/
def File.covered (file : File) : Bool :=
  coveredDecls file.Decls

/-- The single-expression slot of a statement, for the statement kinds that
have one the walker passes to `transpileExpr` by the address of the field. -/
def singleSlot : Stmt → Option Expr
  | .ExprStmt x => some x
  | .SendStmt _ value => some value
  | .IfStmt _ cond _ _ => some cond
  | .ForStmt _ cond _ _ => some cond
  | .SwitchStmt _ tag _ => some tag
  | .GoStmt fn _ => some fn
  | .DeferStmt fn _ => some fn
  | .nil => none
  | .DeclStmt _ => none
  | .AssignStmt _ _ _ => none
  | .ReturnStmt _ => none
  | .BlockStmt _ => none
  | .CaseClause _ _ => none
  | .TypeSwitchStmt _ _ _ => none
  | .SelectStmt _ => none
  | .CommClause _ _ => none
  | .RangeStmt _ _ _ _ => none

/-! ## Example inputs -/

/-- The segments `["a=", expr1, ", b=", (expr2, "d")]`. -/
def abSegments : List Segment :=
  [.mk .nil "a=", .mk (.Ident "expr1") "", .mk .nil ", b=", .mk (.Ident "expr2") "d"]

/-- The segments `["n=", n]` of the literal `$"n={n}"`. -/
def nSegments : List Segment :=
  [.mk .nil "n=", .mk (.Ident "n") ""]

/-- The call `fmt.Sprintf("n=%v", n)` as the lowering builds it. -/
def nLowered : Expr :=
  .CallExpr (.BasicLit .STRING "fmt.Sprintf") [.BasicLit .STRING "n=%v", .Ident "n"]

/-- A file `func main() { ch <- $"n={n}" }` with an empty import table. -/
def sendFile : File :=
  { Decls := [.FuncDecl "main" (some [.SendStmt (.Ident "ch") (.InterpLit nSegments)])],
    Imports := [] }

/-- A file `func main() { ch <- "> " + $"n={n}" }`. -/
def binaryFile : File :=
  { Decls := [.FuncDecl "main" (some [.SendStmt (.Ident "ch")
      (.BinaryExpr (.BasicLit .STRING "\"> \"") .ADD (.InterpLit nSegments))])],
    Imports := [] }

/-- A file without interpolation literals: an import of `"os"`,
`var limit = 10` and `func main() { if limit == 10 { run(limit) } }`. -/
def plainFile : File :=
  { Decls := [
      .GenDecl .IMPORT [.ImportSpec none "\"os\""],
      .GenDecl .VAR [.ValueSpec ["limit"] [.BasicLit .INT "10"]],
      .FuncDecl "main" (some [
        .IfStmt .nil (.BinaryExpr (.Ident "limit") .EQL (.BasicLit .INT "10"))
          (some [.ExprStmt (.CallExpr (.Ident "run") [.Ident "limit"])]) .nil])],
    Imports := [{ Name := none, Path := some "\"os\"" }] }

/-- The statement `if $"n={n}" { go run(func() { done() }) }`. -/
def ifStmt : Stmt :=
  .IfStmt .nil (.InterpLit nSegments)
    (some [.GoStmt (.Ident "run") [.FuncLit (some [.ExprStmt (.CallExpr (.Ident "done") [])])]])
    .nil

/-- The body of the closure in `run(func() { $"n={n}"; s := $"n={n}"; return $"n={n}" })`. -/
def closureBody : List Stmt :=
  [.ExprStmt (.InterpLit nSegments),
   .AssignStmt [.Ident "s"] .DEFINE [.InterpLit nSegments],
   .ReturnStmt [.InterpLit nSegments]]

/-- A file `func main() { if $"n={n}" { go run(func() { ch <- $"n={n}" }) } }`. -/
def coveredFile : File :=
  { Decls := [.FuncDecl "main" (some [
      .IfStmt .nil (.InterpLit nSegments)
        (some [.GoStmt (.Ident "run")
          [.FuncLit (some [.SendStmt (.Ident "ch") (.InterpLit nSegments)])]])
        .nil])],
    Imports := [] }

/-! ## Predicates and example inputs for the import table, the default format and the second pass -/

/-- Whether some entry of the import table has the name `imp`. -/
def hasEntry (imp : String) : List ImportSpec → Bool
  | [] => false
  | i :: rest => i.Name == some imp || hasEntry imp rest

/-- Whether every entry of the import table has a `Name`. -/
def allNamed : List ImportSpec → Bool
  | [] => true
  | i :: rest => i.Name.isSome && allNamed rest

/-- Whether no expression segment carries a directive: a segment whose `X` is
present has the empty `Fmt`. -/
def noDirective : List Segment → Bool
  | [] => true
  | s :: rest => (s.X.isNil || s.Fmt == "") && noDirective rest

/-- The text of every text segment and `%v` for every expression segment, one
after the other. -/
def defaultFormat : List Segment → String
  | [] => ""
  | s :: rest => (if s.X.isNil then s.Fmt else "%v") ++ defaultFormat rest

mutual
/-- Whether no interpolation literal is nested inside an embedded expression
of another: the segments of every `InterpLit` node of the expression hold no
`InterpLit`. -/
def Expr.flat : Expr → Bool
  | .nil => true
  | .Ident _ => true
  | .BasicLit _ _ => true
  | .FuncLit (some list) => flatStmts list
  | .FuncLit none => true
  | .CompositeLit typ elts => typ.flat && flatExprs elts
  | .ParenExpr x => x.flat
  | .SelectorExpr x _ => x.flat
  | .IndexExpr x index => x.flat && index.flat
  | .CallExpr fn args => fn.flat && flatExprs args
  | .UnaryExpr _ x => x.flat
  | .BinaryExpr x _ y => x.flat && y.flat
  | .InterpLit segments => !hasInterpSegments segments
/-- Every expression of the list is flat. -/
def flatExprs : List Expr → Bool
  | [] => true
  | e :: rest => e.flat && flatExprs rest
/-- Whether no interpolation literal of the statement is nested inside an
embedded expression of another. -/
def Stmt.flat : Stmt → Bool
  | .nil => true
  | .DeclStmt d => d.flat
  | .ExprStmt x => x.flat
  | .SendStmt ch value => ch.flat && value.flat
  | .AssignStmt lhs _ rhs => flatExprs lhs && flatExprs rhs
  | .GoStmt fn args => fn.flat && flatExprs args
  | .DeferStmt fn args => fn.flat && flatExprs args
  | .ReturnStmt results => flatExprs results
  | .BlockStmt list => flatStmts list
  | .IfStmt init cond (some list) els => init.flat && cond.flat && flatStmts list && els.flat
  | .IfStmt init cond none els => init.flat && cond.flat && els.flat
  | .SwitchStmt init tag (some list) => init.flat && tag.flat && flatStmts list
  | .SwitchStmt init tag none => init.flat && tag.flat
  | .CaseClause list body => flatExprs list && flatStmts body
  | .TypeSwitchStmt init assign (some list) => init.flat && assign.flat && flatStmts list
  | .TypeSwitchStmt init assign none => init.flat && assign.flat
  | .SelectStmt (some list) => flatStmts list
  | .SelectStmt none => true
  | .CommClause comm body => comm.flat && flatStmts body
  | .ForStmt init cond post (some list) =>
    init.flat && cond.flat && post.flat && flatStmts list
  | .ForStmt init cond post none => init.flat && cond.flat && post.flat
  | .RangeStmt key value x (some list) => key.flat && value.flat && x.flat && flatStmts list
  | .RangeStmt key value x none => key.flat && value.flat && x.flat
/-- Every statement of the list is flat. -/
def flatStmts : List Stmt → Bool
  | [] => true
  | s :: rest => s.flat && flatStmts rest
/-- Whether no interpolation literal of the declaration is nested inside an
embedded expression of another. -/
def Decl.flat : Decl → Bool
  | .FuncDecl _ (some list) => flatStmts list
  | .FuncDecl _ none => true
  | .GenDecl _ specs => flatSpecs specs
/-- Every spec of the list is flat. -/
def flatSpecs : List Spec → Bool
  | [] => true
  | .ValueSpec _ values :: rest => flatExprs values && flatSpecs rest
  | .TypeSpec _ typ :: rest => typ.flat && flatSpecs rest
  | .ImportSpec _ _ :: rest => flatSpecs rest
end

/-- Every declaration of the list is flat. -/
def flatDecls : List Decl → Bool
  | [] => true
  | d :: rest => d.flat && flatDecls rest

/-- No interpolation literal of the file is nested inside an embedded
expression of another. -/
def File.flat (file : File) : Bool :=
  flatDecls file.Decls

/-- The statement `select { case ch <- $"n={n}": out <- $"n={n}" }`. -/
def selectStmt : Stmt :=
  .SelectStmt (some [.CommClause (.SendStmt (.Ident "ch") (.InterpLit nSegments))
    [.SendStmt (.Ident "out") (.InterpLit nSegments)]])

/-- The expression `run(func() { ch <- $"n={n}" })`. -/
def runClosure : Expr :=
  .CallExpr (.Ident "run") [.FuncLit (some [.SendStmt (.Ident "ch") (.InterpLit nSegments)])]

/-- The expression `run(func() { ch <- fmt.Sprintf("n=%v", n) })`. -/
def runClosureLowered : Expr :=
  .CallExpr (.Ident "run") [.FuncLit (some [.SendStmt (.Ident "ch") nLowered])]

/-- A file `func main() { ch <- $"{run(func() { ch <- $"n={n}" })}" }`: the
embedded expression of the outer literal holds a closure with a literal. -/
def nestedFile : File :=
  { Decls := [.FuncDecl "main" (some [.SendStmt (.Ident "ch")
      (.InterpLit [.mk runClosure ""])])],
    Imports := [] }

/-- The file `nestedFile` after one pass. -/
def nestedFileOnce : File :=
  { Decls := [.FuncDecl "main" (some [.SendStmt (.Ident "ch")
      (.CallExpr (.BasicLit .STRING "fmt.Sprintf")
        [.BasicLit .STRING "%v", runClosure])])],
    Imports := [] }

/-- The file `nestedFile` after two passes. -/
def nestedFileTwice : File :=
  { Decls := [.FuncDecl "main" (some [.SendStmt (.Ident "ch")
      (.CallExpr (.BasicLit .STRING "fmt.Sprintf")
        [.BasicLit .STRING "%v", runClosureLowered])])],
    Imports := [] }

/-- The import table of a file whose only import is the plain `"os"`: the
entry has no local name. -/
def osImports : List ImportSpec :=
  [{ Name := none, Path := some "\"os\"" }]

/-- The import table of a file with the two imports `str "strings"` and
`fmt "fmt"`, both with a local name. -/
def namedImports : List ImportSpec :=
  [{ Name := some "str", Path := some "\"strings\"" },
   { Name := some "fmt", Path := some "\"fmt\"" }]

/-- The segments `["100% ", n, " of ", "it"]`: text with a percent sign and two
consecutive text segments. -/
def percentSegments : List Segment :=
  [.mk .nil "100% ", .mk (.Ident "n") "", .mk .nil " of ", .mk .nil "it"]

/-- A file `func f()`: a function declared without a body. -/
def bodylessFile : File :=
  { Decls := [.FuncDecl "f" none], Imports := [] }

/-- A file whose `main` holds an if statement with a nil `Body`. -/
def malformedIfFile : File :=
  { Decls := [.FuncDecl "main" (some [.IfStmt .nil (.Ident "ok") none .nil])], Imports := [] }

/-- A file whose `main` holds, after a return statement, a for statement with a nil `Body`. -/
def malformedForFile : File :=
  { Decls := [.FuncDecl "main" (some [.ReturnStmt [], .ForStmt .nil .nil .nil none])],
    Imports := [] }

/-! ## The walker's way to a missing body -/

mutual
/-- Whether the walker, called on the declaration, arrives at an if, switch,
type-switch, select, for or range statement or a function literal whose `Body`
is nil. The recursion is over the slots the walker passes on, as in
`transpileDecl`; a function declaration without body is not such a node. -/
def Decl.meetsNilBody : Decl → Bool
  | .FuncDecl _ (some list) => meetsNilBodyStmts list
  | .FuncDecl _ none => false
  | .GenDecl _ specs => meetsNilBodySpecs specs
/-- The walker arrives at a missing body in an initializer of some value spec. -/
def meetsNilBodySpecs : List Spec → Bool
  | [] => false
  | .ValueSpec _ values :: rest => meetsNilBodyExprs values || meetsNilBodySpecs rest
  | .TypeSpec _ _ :: rest => meetsNilBodySpecs rest
  | .ImportSpec _ _ :: rest => meetsNilBodySpecs rest
/-- The walker arrives at a missing body in some expression of the list. -/
def meetsNilBodyExprs : List Expr → Bool
  | [] => false
  | v :: rest => v.meetsNilBody || meetsNilBodyExprs rest
/-- Whether the walker, called on the expression, arrives at a missing body:
the expression is a function literal without body, or the walker arrives at
one through the arguments of a call or the body of a function literal. -/
def Expr.meetsNilBody : Expr → Bool
  | .CallExpr _ args => meetsNilBodyExprs args
  | .FuncLit none => true
  | .FuncLit (some list) => meetsNilBodyStmts list
  | .InterpLit _ => false
  | .nil => false
  | .Ident _ => false
  | .BasicLit _ _ => false
  | .CompositeLit _ _ => false
  | .ParenExpr _ => false
  | .SelectorExpr _ _ => false
  | .IndexExpr _ _ => false
  | .UnaryExpr _ _ => false
  | .BinaryExpr _ _ _ => false
/-- The walker arrives at a missing body in some statement of the list. -/
def meetsNilBodyStmts : List Stmt → Bool
  | [] => false
  | v :: rest => v.meetsNilBody || meetsNilBodyStmts rest
/-- Whether the walker, called on the statement, arrives at a missing body:
the statement is an if, switch, type-switch, select, for or range statement
without body, or the walker arrives at a missing body through one of the
slots that `transpileStmt` passes on. -/
def Stmt.meetsNilBody : Stmt → Bool
  | .nil => false
  | .DeclStmt d => d.meetsNilBody
  | .ExprStmt x => x.meetsNilBody
  | .SendStmt _ value => value.meetsNilBody
  | .AssignStmt _ _ rhs => meetsNilBodyExprs rhs
  | .GoStmt fn args => meetsNilBodyExprs args || fn.meetsNilBody
  | .DeferStmt fn args => meetsNilBodyExprs args || fn.meetsNilBody
  | .ReturnStmt results => meetsNilBodyExprs results
  | .BlockStmt list => meetsNilBodyStmts list
  | .IfStmt init cond (some list) els =>
    init.meetsNilBody || cond.meetsNilBody || els.meetsNilBody || meetsNilBodyStmts list
  | .IfStmt _ _ none _ => true
  | .SwitchStmt init tag (some list) =>
    init.meetsNilBody || tag.meetsNilBody || meetsNilBodyStmts list
  | .SwitchStmt _ _ none => true
  | .CaseClause list body => meetsNilBodyExprs list || meetsNilBodyStmts body
  | .TypeSwitchStmt init assign (some list) =>
    init.meetsNilBody || assign.meetsNilBody || meetsNilBodyStmts list
  | .TypeSwitchStmt _ _ none => true
  | .SelectStmt (some list) => meetsNilBodyStmts list
  | .SelectStmt none => true
  | .CommClause _ _ => false
  | .ForStmt init cond post (some list) =>
    init.meetsNilBody || cond.meetsNilBody || meetsNilBodyStmts list || post.meetsNilBody
  | .ForStmt _ _ _ none => true
  | .RangeStmt _ _ _ (some list) => meetsNilBodyStmts list
  | .RangeStmt _ _ _ none => true
end

/-- The walker arrives at a missing body in some declaration of the list. -/
def meetsNilBodyDecls : List Decl → Bool
  | [] => false
  | d :: rest => d.meetsNilBody || meetsNilBodyDecls rest

/-- The pass over the file arrives at an if, switch, type-switch, select, for
or range statement or a function literal whose `Body` is nil. -/
def File.meetsNilBody (file : File) : Bool :=
  meetsNilBodyDecls file.Decls

/-- A file `var n = 1`, `func main() { ch <- $"n={n}"; defer run(n, func() {
switch n { case 1: for <no body> } }) }`: the for statement without body is in
a case clause of a switch in a closure that is the second argument of a
deferred call, after a declaration and a statement that the walker passes. -/
def deepMalformedFile : File :=
  { Decls := [
      .GenDecl .VAR [.ValueSpec ["n"] [.BasicLit .INT "1"]],
      .FuncDecl "main" (some [
        .SendStmt (.Ident "ch") (.InterpLit nSegments),
        .DeferStmt (.Ident "run") [.Ident "n", .FuncLit (some [
          .SwitchStmt .nil (.Ident "n") (some [
            .CaseClause [.BasicLit .INT "1"] [.ForStmt .nil .nil .nil none]])])]])],
    Imports := [] }

/-- The arguments `n, func() { done() }` in front of a closure. -/
def argsBefore : List Expr :=
  [.Ident "n", .FuncLit (some [.ExprStmt (.CallExpr (.Ident "done") [])])]

/-- The argument `m` after a closure. -/
def argsAfter : List Expr :=
  [.Ident "m"]

/-- The statement `x := 1` in front of a literal in a closure body. -/
def stmtsBefore : List Stmt :=
  [.AssignStmt [.Ident "x"] .DEFINE [.BasicLit .INT "1"]]

/-- The statement `return x` after a literal in a closure body. -/
def stmtsAfter : List Stmt :=
  [.ReturnStmt [.Ident "x"]]

/-- The arguments `n, g(func() { ch <- $"n={n}"; go func() { $"n={n}" }() })`:
the literals are in single-expression slots of closures, one closure inside
the other, the outer one an argument of a call that is itself an argument. -/
def closureArgs : List Expr :=
  [.Ident "n",
   .CallExpr (.Ident "g") [.FuncLit (some [
     .SendStmt (.Ident "ch") (.InterpLit nSegments),
     .GoStmt (.FuncLit (some [.ExprStmt (.InterpLit nSegments)])) []])]]

/-! ## Unfolding of the walker, one equation per case of the source -/

@[simp] theorem transpileDecl_FuncDecl (name : String) (list : List Stmt) :
    transpileDecl (.FuncDecl name (some list)) = (transpileStmts list).bind fun list' => some (.FuncDecl name (some list')) := rfl

@[simp] theorem transpileDecl_FuncDecl_nil (name : String) :
    transpileDecl (.FuncDecl name none) = none := rfl

@[simp] theorem transpileDecl_GenDecl (tok : Token) (specs : List Spec) :
    transpileDecl (.GenDecl tok specs) = (transpileSpecs specs).bind fun specs' => some (.GenDecl tok specs') := rfl

@[simp] theorem transpileSpecs_nil :
    transpileSpecs [] = some [] := rfl

@[simp] theorem transpileSpecs_ValueSpec (names : List String) (values : List Expr) (rest : List Spec) :
    transpileSpecs (.ValueSpec names values :: rest) = (transpileExprs values).bind fun values' =>
      (transpileSpecs rest).bind fun rest' => some (.ValueSpec names values' :: rest') := rfl

@[simp] theorem transpileSpecs_TypeSpec (name : String) (typ : Expr) (rest : List Spec) :
    transpileSpecs (.TypeSpec name typ :: rest) = (transpileSpecs rest).bind fun rest' => some (.TypeSpec name typ :: rest') := rfl

@[simp] theorem transpileSpecs_ImportSpec (name : Option String) (path : String) (rest : List Spec) :
    transpileSpecs (.ImportSpec name path :: rest) = (transpileSpecs rest).bind fun rest' => some (.ImportSpec name path :: rest') := rfl

@[simp] theorem transpileExprs_nil :
    transpileExprs [] = some [] := rfl

@[simp] theorem transpileExprs_cons (v : Expr) (rest : List Expr) :
    transpileExprs (v :: rest) = (transpileExpr v).bind fun w =>
      (transpileExprs rest).bind fun rest' => some (rangeElem v w :: rest') := rfl

@[simp] theorem transpileExpr_CallExpr (fn : Expr) (args : List Expr) :
    transpileExpr (.CallExpr fn args) = (transpileExprs args).bind fun args' => some (.CallExpr fn args') := rfl

@[simp] theorem transpileExpr_InterpLit (segments : List Segment) :
    transpileExpr (.InterpLit segments) = some (lowerInterpLit segments) := rfl

@[simp] theorem transpileExpr_FuncLit (list : List Stmt) :
    transpileExpr (.FuncLit (some list)) = (transpileStmts list).bind fun list' => some (.FuncLit (some list')) := rfl

@[simp] theorem transpileExpr_FuncLit_nil :
    transpileExpr (.FuncLit none) = none := rfl

@[simp] theorem transpileExpr_nil :
    transpileExpr .nil = some .nil := rfl

@[simp] theorem transpileExpr_Ident (name : String) :
    transpileExpr (.Ident name) = some (.Ident name) := rfl

@[simp] theorem transpileExpr_BasicLit (kind : Token) (value : String) :
    transpileExpr (.BasicLit kind value) = some (.BasicLit kind value) := rfl

@[simp] theorem transpileExpr_CompositeLit (typ : Expr) (elts : List Expr) :
    transpileExpr (.CompositeLit typ elts) = some (.CompositeLit typ elts) := rfl

@[simp] theorem transpileExpr_ParenExpr (x : Expr) :
    transpileExpr (.ParenExpr x) = some (.ParenExpr x) := rfl

@[simp] theorem transpileExpr_SelectorExpr (x : Expr) (sel : String) :
    transpileExpr (.SelectorExpr x sel) = some (.SelectorExpr x sel) := rfl

@[simp] theorem transpileExpr_IndexExpr (x index : Expr) :
    transpileExpr (.IndexExpr x index) = some (.IndexExpr x index) := rfl

@[simp] theorem transpileExpr_UnaryExpr (op : Token) (x : Expr) :
    transpileExpr (.UnaryExpr op x) = some (.UnaryExpr op x) := rfl

@[simp] theorem transpileExpr_BinaryExpr (x : Expr) (op : Token) (y : Expr) :
    transpileExpr (.BinaryExpr x op y) = some (.BinaryExpr x op y) := rfl

@[simp] theorem transpileStmts_nil :
    transpileStmts [] = some [] := rfl

@[simp] theorem transpileStmts_cons (v : Stmt) (rest : List Stmt) :
    transpileStmts (v :: rest) = (transpileStmt v).bind fun v' =>
      (transpileStmts rest).bind fun rest' => some (v' :: rest') := rfl

@[simp] theorem transpileStmt_nil :
    transpileStmt .nil = some .nil := rfl

@[simp] theorem transpileStmt_DeclStmt (d : Decl) :
    transpileStmt (.DeclStmt d) = (transpileDecl d).bind fun d' => some (.DeclStmt d') := rfl

@[simp] theorem transpileStmt_ExprStmt (x : Expr) :
    transpileStmt (.ExprStmt x) = (transpileExpr x).bind fun x' => some (.ExprStmt x') := rfl

@[simp] theorem transpileStmt_SendStmt (ch value : Expr) :
    transpileStmt (.SendStmt ch value) = (transpileExpr value).bind fun value' => some (.SendStmt ch value') := rfl

@[simp] theorem transpileStmt_AssignStmt (lhs : List Expr) (tok : Token) (rhs : List Expr) :
    transpileStmt (.AssignStmt lhs tok rhs) = (transpileExprs rhs).bind fun rhs' => some (.AssignStmt lhs tok rhs') := rfl

@[simp] theorem transpileStmt_GoStmt (fn : Expr) (args : List Expr) :
    transpileStmt (.GoStmt fn args) = (transpileExprs args).bind fun args' =>
      (transpileExpr fn).bind fun fn' => some (.GoStmt fn' args') := rfl

@[simp] theorem transpileStmt_DeferStmt (fn : Expr) (args : List Expr) :
    transpileStmt (.DeferStmt fn args) = (transpileExprs args).bind fun args' =>
      (transpileExpr fn).bind fun fn' => some (.DeferStmt fn' args') := rfl

@[simp] theorem transpileStmt_ReturnStmt (results : List Expr) :
    transpileStmt (.ReturnStmt results) = (transpileExprs results).bind fun results' => some (.ReturnStmt results') := rfl

@[simp] theorem transpileStmt_BlockStmt (list : List Stmt) :
    transpileStmt (.BlockStmt list) = (transpileStmts list).bind fun list' => some (.BlockStmt list') := rfl

@[simp] theorem transpileStmt_IfStmt (init : Stmt) (cond : Expr) (list : List Stmt) (els : Stmt) :
    transpileStmt (.IfStmt init cond (some list) els) = (transpileStmt init).bind fun init' =>
      (transpileExpr cond).bind fun cond' =>
      (transpileStmt els).bind fun els' =>
      (transpileStmts list).bind fun list' => some (.IfStmt init' cond' (some list') els') := rfl

@[simp] theorem transpileStmt_IfStmt_nil (init : Stmt) (cond : Expr) (els : Stmt) :
    transpileStmt (.IfStmt init cond none els) = none := rfl

@[simp] theorem transpileStmt_SwitchStmt (init : Stmt) (tag : Expr) (list : List Stmt) :
    transpileStmt (.SwitchStmt init tag (some list)) = (transpileStmt init).bind fun init' =>
      (transpileExpr tag).bind fun tag' =>
      (transpileStmts list).bind fun list' => some (.SwitchStmt init' tag' (some list')) := rfl

@[simp] theorem transpileStmt_SwitchStmt_nil (init : Stmt) (tag : Expr) :
    transpileStmt (.SwitchStmt init tag none) = none := rfl

@[simp] theorem transpileStmt_CaseClause (list : List Expr) (body : List Stmt) :
    transpileStmt (.CaseClause list body) = (transpileExprs list).bind fun list' =>
      (transpileStmts body).bind fun body' => some (.CaseClause list' body') := rfl

@[simp] theorem transpileStmt_TypeSwitchStmt (init assign : Stmt) (list : List Stmt) :
    transpileStmt (.TypeSwitchStmt init assign (some list)) = (transpileStmt init).bind fun init' =>
      (transpileStmt assign).bind fun assign' =>
      (transpileStmts list).bind fun list' => some (.TypeSwitchStmt init' assign' (some list')) := rfl

@[simp] theorem transpileStmt_TypeSwitchStmt_nil (init assign : Stmt) :
    transpileStmt (.TypeSwitchStmt init assign none) = none := rfl

@[simp] theorem transpileStmt_SelectStmt (list : List Stmt) :
    transpileStmt (.SelectStmt (some list)) = (transpileStmts list).bind fun list' => some (.SelectStmt (some list')) := rfl

@[simp] theorem transpileStmt_SelectStmt_nil :
    transpileStmt (.SelectStmt none) = none := rfl

@[simp] theorem transpileStmt_CommClause (comm : Stmt) (body : List Stmt) :
    transpileStmt (.CommClause comm body) = some (.CommClause comm body) := rfl

@[simp] theorem transpileStmt_ForStmt (init : Stmt) (cond : Expr) (post : Stmt) (list : List Stmt) :
    transpileStmt (.ForStmt init cond post (some list)) = (transpileStmt init).bind fun init' =>
      (transpileExpr cond).bind fun cond' =>
      (transpileStmts list).bind fun list' =>
      (transpileStmt post).bind fun post' => some (.ForStmt init' cond' post' (some list')) := rfl

@[simp] theorem transpileStmt_ForStmt_nil (init : Stmt) (cond : Expr) (post : Stmt) :
    transpileStmt (.ForStmt init cond post none) = none := rfl

@[simp] theorem transpileStmt_RangeStmt (key value x : Expr) (list : List Stmt) :
    transpileStmt (.RangeStmt key value x (some list)) = (transpileStmts list).bind fun list' => some (.RangeStmt key value x (some list')) := rfl

@[simp] theorem transpileStmt_RangeStmt_nil (key value x : Expr) :
    transpileStmt (.RangeStmt key value x none) = none := rfl

@[simp] theorem transpileDecls_nil :
    transpileDecls [] = some [] := rfl

@[simp] theorem transpileDecls_cons (d : Decl) (rest : List Decl) :
    transpileDecls (d :: rest) = (transpileDecl d).bind fun d' =>
      (transpileDecls rest).bind fun rest' => some (d' :: rest') := rfl

/-! ## Literal lowering -/

theorem foldl_segmentStep_args (segments : List Segment) (acc : String × List Expr) :
    (segments.foldl segmentStep acc).2 = acc.2 ++ embedded segments := by
  induction segments generalizing acc with
  | nil => simp [embedded]
  | cons s rest ih =>
    rw [List.foldl_cons, ih]
    cases h : s.X.isNil <;> simp [segmentStep, embedded, h]

theorem length_embedded (segments : List Segment) :
    (embedded segments).length = exprSegments segments := by
  induction segments with
  | nil => rfl
  | cons s rest ih =>
    cases h : s.X.isNil <;> simp [embedded, exprSegments, h] at ih ⊢ <;> exact ih

theorem lowerInterpLit_eq (segments : List Segment) :
    lowerInterpLit segments
      = .CallExpr (.BasicLit .STRING "fmt.Sprintf")
          (.BasicLit .STRING (segments.foldl segmentStep ("", [Expr.nil])).1
            :: embedded segments) := by
  simp [lowerInterpLit, foldl_segmentStep_args]

theorem hasInterpExprs_embedded (segments : List Segment) :
    hasInterpExprs (embedded segments) = hasInterpSegments segments := by
  induction segments with
  | nil => rfl
  | cons s rest ih =>
    obtain ⟨x, f⟩ := s
    cases x <;> simp [embedded, Segment.X, Expr.isNil, hasInterpExprs, hasInterpSegments, ih,
      Expr.hasInterp]

theorem hasInterp_lowerInterpLit (segments : List Segment) :
    (lowerInterpLit segments).hasInterp = hasInterpSegments segments := by
  rw [lowerInterpLit_eq]
  simp [Expr.hasInterp, hasInterpExprs, hasInterpExprs_embedded]

@[simp] theorem rangeElem_self (v : Expr) : rangeElem v v = v := by
  cases v <;> rfl

/-! ## The walker returns on a tree whose bodies are all present -/

mutual
theorem transpileDecl_total : (d : Decl) → d.bodies = true → ∃ d', transpileDecl d = some d'
  | .FuncDecl _ (some list), h => by
    obtain ⟨_, e1⟩ := transpileStmts_total list (by simpa [Decl.bodies] using h)
    simp [e1]
  | .FuncDecl _ none, h => by simp [Decl.bodies] at h
  | .GenDecl _ specs, h => by
    obtain ⟨_, e1⟩ := transpileSpecs_total specs (by simpa [Decl.bodies] using h)
    simp [e1]
theorem transpileSpecs_total :
    (specs : List Spec) → bodiesSpecs specs = true → ∃ specs', transpileSpecs specs = some specs'
  | [], _ => ⟨_, rfl⟩
  | .ValueSpec _ values :: rest, h => by
    simp only [bodiesSpecs, Bool.and_eq_true] at h
    obtain ⟨_, e1⟩ := transpileExprs_total values h.1
    obtain ⟨_, e2⟩ := transpileSpecs_total rest h.2
    simp [e1, e2]
  | .TypeSpec _ _ :: rest, h => by
    simp only [bodiesSpecs, Bool.and_eq_true] at h
    obtain ⟨_, e2⟩ := transpileSpecs_total rest h.2
    simp [e2]
  | .ImportSpec _ _ :: rest, h => by
    simp only [bodiesSpecs] at h
    obtain ⟨_, e2⟩ := transpileSpecs_total rest h
    simp [e2]
theorem transpileExprs_total :
    (es : List Expr) → bodiesExprs es = true → ∃ es', transpileExprs es = some es'
  | [], _ => ⟨_, rfl⟩
  | v :: rest, h => by
    simp only [bodiesExprs, Bool.and_eq_true] at h
    obtain ⟨_, e1⟩ := transpileExpr_total v h.1
    obtain ⟨_, e2⟩ := transpileExprs_total rest h.2
    simp [e1, e2]
theorem transpileExpr_total : (e : Expr) → e.bodies = true → ∃ e', transpileExpr e = some e'
  | .CallExpr _ args, h => by
    simp only [Expr.bodies, Bool.and_eq_true] at h
    obtain ⟨_, e1⟩ := transpileExprs_total args h.2
    simp [e1]
  | .InterpLit _, _ => ⟨_, rfl⟩
  | .FuncLit (some list), h => by
    obtain ⟨_, e1⟩ := transpileStmts_total list (by simpa [Expr.bodies] using h)
    simp [e1]
  | .FuncLit none, h => by simp [Expr.bodies] at h
  | .nil, _ => ⟨_, rfl⟩
  | .Ident _, _ => ⟨_, rfl⟩
  | .BasicLit _ _, _ => ⟨_, rfl⟩
  | .CompositeLit _ _, _ => ⟨_, rfl⟩
  | .ParenExpr _, _ => ⟨_, rfl⟩
  | .SelectorExpr _ _, _ => ⟨_, rfl⟩
  | .IndexExpr _ _, _ => ⟨_, rfl⟩
  | .UnaryExpr _ _, _ => ⟨_, rfl⟩
  | .BinaryExpr _ _ _, _ => ⟨_, rfl⟩
theorem transpileStmts_total :
    (ss : List Stmt) → bodiesStmts ss = true → ∃ ss', transpileStmts ss = some ss'
  | [], _ => ⟨_, rfl⟩
  | v :: rest, h => by
    simp only [bodiesStmts, Bool.and_eq_true] at h
    obtain ⟨_, e1⟩ := transpileStmt_total v h.1
    obtain ⟨_, e2⟩ := transpileStmts_total rest h.2
    simp [e1, e2]
theorem transpileStmt_total : (s : Stmt) → s.bodies = true → ∃ s', transpileStmt s = some s'
  | .nil, _ => ⟨_, rfl⟩
  | .DeclStmt d, h => by
    obtain ⟨_, e1⟩ := transpileDecl_total d (by simpa [Stmt.bodies] using h)
    simp [e1]
  | .ExprStmt x, h => by
    obtain ⟨_, e1⟩ := transpileExpr_total x (by simpa [Stmt.bodies] using h)
    simp [e1]
  | .SendStmt _ value, h => by
    simp only [Stmt.bodies, Bool.and_eq_true] at h
    obtain ⟨_, e1⟩ := transpileExpr_total value h.2
    simp [e1]
  | .AssignStmt _ _ rhs, h => by
    simp only [Stmt.bodies, Bool.and_eq_true] at h
    obtain ⟨_, e1⟩ := transpileExprs_total rhs h.2
    simp [e1]
  | .GoStmt fn args, h => by
    simp only [Stmt.bodies, Bool.and_eq_true] at h
    obtain ⟨_, e1⟩ := transpileExpr_total fn h.1
    obtain ⟨_, e2⟩ := transpileExprs_total args h.2
    simp [e1, e2]
  | .DeferStmt fn args, h => by
    simp only [Stmt.bodies, Bool.and_eq_true] at h
    obtain ⟨_, e1⟩ := transpileExpr_total fn h.1
    obtain ⟨_, e2⟩ := transpileExprs_total args h.2
    simp [e1, e2]
  | .ReturnStmt results, h => by
    obtain ⟨_, e1⟩ := transpileExprs_total results (by simpa [Stmt.bodies] using h)
    simp [e1]
  | .BlockStmt list, h => by
    obtain ⟨_, e1⟩ := transpileStmts_total list (by simpa [Stmt.bodies] using h)
    simp [e1]
  | .IfStmt init cond (some list) els, h => by
    simp only [Stmt.bodies, Bool.and_eq_true] at h
    obtain ⟨_, e1⟩ := transpileStmt_total init h.1.1.1
    obtain ⟨_, e2⟩ := transpileExpr_total cond h.1.1.2
    obtain ⟨_, e3⟩ := transpileStmts_total list h.1.2
    obtain ⟨_, e4⟩ := transpileStmt_total els h.2
    simp [e1, e2, e3, e4]
  | .IfStmt _ _ none _, h => by simp [Stmt.bodies] at h
  | .SwitchStmt init tag (some list), h => by
    simp only [Stmt.bodies, Bool.and_eq_true] at h
    obtain ⟨_, e1⟩ := transpileStmt_total init h.1.1
    obtain ⟨_, e2⟩ := transpileExpr_total tag h.1.2
    obtain ⟨_, e3⟩ := transpileStmts_total list h.2
    simp [e1, e2, e3]
  | .SwitchStmt _ _ none, h => by simp [Stmt.bodies] at h
  | .CaseClause list body, h => by
    simp only [Stmt.bodies, Bool.and_eq_true] at h
    obtain ⟨_, e1⟩ := transpileExprs_total list h.1
    obtain ⟨_, e2⟩ := transpileStmts_total body h.2
    simp [e1, e2]
  | .TypeSwitchStmt init assign (some list), h => by
    simp only [Stmt.bodies, Bool.and_eq_true] at h
    obtain ⟨_, e1⟩ := transpileStmt_total init h.1.1
    obtain ⟨_, e2⟩ := transpileStmt_total assign h.1.2
    obtain ⟨_, e3⟩ := transpileStmts_total list h.2
    simp [e1, e2, e3]
  | .TypeSwitchStmt _ _ none, h => by simp [Stmt.bodies] at h
  | .SelectStmt (some list), h => by
    obtain ⟨_, e1⟩ := transpileStmts_total list (by simpa [Stmt.bodies] using h)
    simp [e1]
  | .SelectStmt none, h => by simp [Stmt.bodies] at h
  | .CommClause _ _, _ => ⟨_, rfl⟩
  | .ForStmt init cond post (some list), h => by
    simp only [Stmt.bodies, Bool.and_eq_true] at h
    obtain ⟨_, e1⟩ := transpileStmt_total init h.1.1.1
    obtain ⟨_, e2⟩ := transpileExpr_total cond h.1.1.2
    obtain ⟨_, e3⟩ := transpileStmt_total post h.1.2
    obtain ⟨_, e4⟩ := transpileStmts_total list h.2
    simp [e1, e2, e3, e4]
  | .ForStmt _ _ _ none, h => by simp [Stmt.bodies] at h
  | .RangeStmt _ _ _ (some list), h => by
    simp only [Stmt.bodies, Bool.and_eq_true] at h
    obtain ⟨_, e1⟩ := transpileStmts_total list h.2
    simp [e1]
  | .RangeStmt _ _ _ none, h => by simp [Stmt.bodies] at h
end

theorem transpileDecls_total :
    (ds : List Decl) → bodiesDecls ds = true → ∃ ds', transpileDecls ds = some ds'
  | [], _ => ⟨_, rfl⟩
  | d :: rest, h => by
    simp only [bodiesDecls, Bool.and_eq_true] at h
    obtain ⟨_, e1⟩ := transpileDecl_total d h.1
    obtain ⟨_, e2⟩ := transpileDecls_total rest h.2
    simp [e1, e2]

/-! ## On a tree without interpolation literals the walker writes nothing -/

mutual
theorem transpileDecl_plain :
    (d : Decl) → d.hasInterp = false → transpileDecl d = none ∨ transpileDecl d = some d
  | .FuncDecl _ (some list), h => by
    rcases transpileStmts_plain list (by simpa [Decl.hasInterp] using h) with e1 | e1 <;>
      simp [e1]
  | .FuncDecl _ none, _ => Or.inl rfl
  | .GenDecl _ specs, h => by
    rcases transpileSpecs_plain specs (by simpa [Decl.hasInterp] using h) with e1 | e1 <;>
      simp [e1]
theorem transpileSpecs_plain :
    (specs : List Spec) → hasInterpSpecs specs = false →
      transpileSpecs specs = none ∨ transpileSpecs specs = some specs
  | [], _ => Or.inr rfl
  | .ValueSpec _ values :: rest, h => by
    simp only [hasInterpSpecs, Bool.or_eq_false_iff] at h
    rcases transpileExprs_plain values h.1 with e1 | e1 <;>
      rcases transpileSpecs_plain rest h.2 with e2 | e2 <;> simp [e1, e2]
  | .TypeSpec _ _ :: rest, h => by
    simp only [hasInterpSpecs, Bool.or_eq_false_iff] at h
    rcases transpileSpecs_plain rest h.2 with e2 | e2 <;> simp [e2]
  | .ImportSpec _ _ :: rest, h => by
    simp only [hasInterpSpecs] at h
    rcases transpileSpecs_plain rest h with e2 | e2 <;> simp [e2]
theorem transpileExprs_plain :
    (es : List Expr) → hasInterpExprs es = false →
      transpileExprs es = none ∨ transpileExprs es = some es
  | [], _ => Or.inr rfl
  | v :: rest, h => by
    simp only [hasInterpExprs, Bool.or_eq_false_iff] at h
    rcases transpileExpr_plain v h.1 with e1 | e1 <;>
      rcases transpileExprs_plain rest h.2 with e2 | e2 <;> simp [e1, e2]
theorem transpileExpr_plain :
    (e : Expr) → e.hasInterp = false → transpileExpr e = none ∨ transpileExpr e = some e
  | .CallExpr _ args, h => by
    simp only [Expr.hasInterp, Bool.or_eq_false_iff] at h
    rcases transpileExprs_plain args h.2 with e1 | e1 <;> simp [e1]
  | .InterpLit _, h => by simp [Expr.hasInterp] at h
  | .FuncLit (some list), h => by
    rcases transpileStmts_plain list (by simpa [Expr.hasInterp] using h) with e1 | e1 <;>
      simp [e1]
  | .FuncLit none, _ => Or.inl rfl
  | .nil, _ => Or.inr rfl
  | .Ident _, _ => Or.inr rfl
  | .BasicLit _ _, _ => Or.inr rfl
  | .CompositeLit _ _, _ => Or.inr rfl
  | .ParenExpr _, _ => Or.inr rfl
  | .SelectorExpr _ _, _ => Or.inr rfl
  | .IndexExpr _ _, _ => Or.inr rfl
  | .UnaryExpr _ _, _ => Or.inr rfl
  | .BinaryExpr _ _ _, _ => Or.inr rfl
theorem transpileStmts_plain :
    (ss : List Stmt) → hasInterpStmts ss = false →
      transpileStmts ss = none ∨ transpileStmts ss = some ss
  | [], _ => Or.inr rfl
  | v :: rest, h => by
    simp only [hasInterpStmts, Bool.or_eq_false_iff] at h
    rcases transpileStmt_plain v h.1 with e1 | e1 <;>
      rcases transpileStmts_plain rest h.2 with e2 | e2 <;> simp [e1, e2]
theorem transpileStmt_plain :
    (s : Stmt) → s.hasInterp = false → transpileStmt s = none ∨ transpileStmt s = some s
  | .nil, _ => Or.inr rfl
  | .DeclStmt d, h => by
    rcases transpileDecl_plain d (by simpa [Stmt.hasInterp] using h) with e1 | e1 <;> simp [e1]
  | .ExprStmt x, h => by
    rcases transpileExpr_plain x (by simpa [Stmt.hasInterp] using h) with e1 | e1 <;> simp [e1]
  | .SendStmt _ value, h => by
    simp only [Stmt.hasInterp, Bool.or_eq_false_iff] at h
    rcases transpileExpr_plain value h.2 with e1 | e1 <;> simp [e1]
  | .AssignStmt _ _ rhs, h => by
    simp only [Stmt.hasInterp, Bool.or_eq_false_iff] at h
    rcases transpileExprs_plain rhs h.2 with e1 | e1 <;> simp [e1]
  | .GoStmt fn args, h => by
    simp only [Stmt.hasInterp, Bool.or_eq_false_iff] at h
    rcases transpileExpr_plain fn h.1 with e1 | e1 <;>
      rcases transpileExprs_plain args h.2 with e2 | e2 <;> simp [e1, e2]
  | .DeferStmt fn args, h => by
    simp only [Stmt.hasInterp, Bool.or_eq_false_iff] at h
    rcases transpileExpr_plain fn h.1 with e1 | e1 <;>
      rcases transpileExprs_plain args h.2 with e2 | e2 <;> simp [e1, e2]
  | .ReturnStmt results, h => by
    rcases transpileExprs_plain results (by simpa [Stmt.hasInterp] using h) with e1 | e1 <;>
      simp [e1]
  | .BlockStmt list, h => by
    rcases transpileStmts_plain list (by simpa [Stmt.hasInterp] using h) with e1 | e1 <;>
      simp [e1]
  | .IfStmt init cond (some list) els, h => by
    simp only [Stmt.hasInterp, Bool.or_eq_false_iff] at h
    rcases transpileStmt_plain init h.1.1.1 with e1 | e1 <;>
      rcases transpileExpr_plain cond h.1.1.2 with e2 | e2 <;>
      rcases transpileStmts_plain list h.1.2 with e3 | e3 <;>
      rcases transpileStmt_plain els h.2 with e4 | e4 <;> simp [e1, e2, e3, e4]
  | .IfStmt _ _ none _, _ => Or.inl rfl
  | .SwitchStmt init tag (some list), h => by
    simp only [Stmt.hasInterp, Bool.or_eq_false_iff] at h
    rcases transpileStmt_plain init h.1.1 with e1 | e1 <;>
      rcases transpileExpr_plain tag h.1.2 with e2 | e2 <;>
      rcases transpileStmts_plain list h.2 with e3 | e3 <;> simp [e1, e2, e3]
  | .SwitchStmt _ _ none, _ => Or.inl rfl
  | .CaseClause list body, h => by
    simp only [Stmt.hasInterp, Bool.or_eq_false_iff] at h
    rcases transpileExprs_plain list h.1 with e1 | e1 <;>
      rcases transpileStmts_plain body h.2 with e2 | e2 <;> simp [e1, e2]
  | .TypeSwitchStmt init assign (some list), h => by
    simp only [Stmt.hasInterp, Bool.or_eq_false_iff] at h
    rcases transpileStmt_plain init h.1.1 with e1 | e1 <;>
      rcases transpileStmt_plain assign h.1.2 with e2 | e2 <;>
      rcases transpileStmts_plain list h.2 with e3 | e3 <;> simp [e1, e2, e3]
  | .TypeSwitchStmt _ _ none, _ => Or.inl rfl
  | .SelectStmt (some list), h => by
    rcases transpileStmts_plain list (by simpa [Stmt.hasInterp] using h) with e1 | e1 <;>
      simp [e1]
  | .SelectStmt none, _ => Or.inl rfl
  | .CommClause _ _, _ => Or.inr rfl
  | .ForStmt init cond post (some list), h => by
    simp only [Stmt.hasInterp, Bool.or_eq_false_iff] at h
    rcases transpileStmt_plain init h.1.1.1 with e1 | e1 <;>
      rcases transpileExpr_plain cond h.1.1.2 with e2 | e2 <;>
      rcases transpileStmt_plain post h.1.2 with e3 | e3 <;>
      rcases transpileStmts_plain list h.2 with e4 | e4 <;> simp [e1, e2, e3, e4]
  | .ForStmt _ _ _ none, _ => Or.inl rfl
  | .RangeStmt _ _ _ (some list), h => by
    simp only [Stmt.hasInterp, Bool.or_eq_false_iff] at h
    rcases transpileStmts_plain list h.2 with e1 | e1 <;> simp [e1]
  | .RangeStmt _ _ _ none, _ => Or.inl rfl
end

theorem transpileDecls_plain :
    (ds : List Decl) → hasInterpDecls ds = false →
      transpileDecls ds = none ∨ transpileDecls ds = some ds
  | [], _ => Or.inr rfl
  | d :: rest, h => by
    simp only [hasInterpDecls, Bool.or_eq_false_iff] at h
    rcases transpileDecl_plain d h.1 with e1 | e1 <;>
      rcases transpileDecls_plain rest h.2 with e2 | e2 <;> simp [e1, e2]

/-! ## On a covered tree the walker returns a tree without interpolation literals -/

mutual
theorem transpileDecl_covered :
    (d : Decl) → d.covered = true → ∃ d', transpileDecl d = some d' ∧ d'.hasInterp = false
  | .FuncDecl _ (some list), h => by
    obtain ⟨_, e1, c1⟩ := transpileStmts_covered list (by simpa [Decl.covered] using h)
    simp [e1, c1, Decl.hasInterp]
  | .FuncDecl _ none, h => by simp [Decl.covered] at h
  | .GenDecl _ specs, h => by
    obtain ⟨_, e1, c1⟩ := transpileSpecs_covered specs (by simpa [Decl.covered] using h)
    simp [e1, c1, Decl.hasInterp]
theorem transpileSpecs_covered :
    (specs : List Spec) → coveredSpecs specs = true →
      ∃ specs', transpileSpecs specs = some specs' ∧ hasInterpSpecs specs' = false
  | [], _ => ⟨_, rfl, rfl⟩
  | .ValueSpec _ values :: rest, h => by
    simp only [coveredSpecs, Bool.and_eq_true] at h
    obtain ⟨_, e1, c1⟩ := transpileExprs_covered values h.1
    obtain ⟨_, e2, c2⟩ := transpileSpecs_covered rest h.2
    simp [e1, e2, c1, c2, hasInterpSpecs]
  | .TypeSpec _ _ :: rest, h => by
    simp only [coveredSpecs, Bool.and_eq_true, Bool.not_eq_true'] at h
    obtain ⟨_, e2, c2⟩ := transpileSpecs_covered rest h.2
    simp [e2, c2, hasInterpSpecs, h.1]
  | .ImportSpec _ _ :: rest, h => by
    simp only [coveredSpecs] at h
    obtain ⟨_, e2, c2⟩ := transpileSpecs_covered rest h
    simp [e2, c2, hasInterpSpecs]
theorem transpileExprs_covered :
    (es : List Expr) → coveredExprs es = true →
      ∃ es', transpileExprs es = some es' ∧ hasInterpExprs es' = false
  | [], _ => ⟨_, rfl, rfl⟩
  | v :: rest, h => by
    simp only [coveredExprs, Bool.and_eq_true] at h
    obtain ⟨_, e1, c1, r1⟩ := transpileExpr_covered false v h.1
    obtain ⟨_, e2, c2⟩ := transpileExprs_covered rest h.2
    simp [e1, e2, c1, c2, r1, hasInterpExprs]
theorem transpileExpr_covered :
    (slot : Bool) → (e : Expr) → Expr.covered slot e = true →
      ∃ w, transpileExpr e = some w ∧ w.hasInterp = false ∧ (slot = false → rangeElem e w = w)
  | _, .CallExpr _ args, h => by
    simp only [Expr.covered, Bool.and_eq_true, Bool.not_eq_true'] at h
    obtain ⟨_, e1, c1⟩ := transpileExprs_covered args h.2
    simp [e1, c1, h.1, Expr.hasInterp, rangeElem]
  | slot, .InterpLit segments, h => by
    simp only [Expr.covered, Bool.and_eq_true, Bool.not_eq_true'] at h
    simp [hasInterp_lowerInterpLit, h.1, h.2]
  | _, .FuncLit (some list), h => by
    obtain ⟨_, e1, c1⟩ := transpileStmts_covered list (by simpa [Expr.covered] using h)
    simp [e1, c1, Expr.hasInterp, rangeElem]
  | _, .FuncLit none, h => by simp [Expr.covered] at h
  | _, .nil, _ => ⟨_, rfl, rfl, fun _ => rfl⟩
  | _, .Ident _, _ => ⟨_, rfl, rfl, fun _ => rfl⟩
  | _, .BasicLit _ _, _ => ⟨_, rfl, rfl, fun _ => rfl⟩
  | _, .CompositeLit _ _, h => by
    simp only [Expr.covered, Bool.and_eq_true, Bool.not_eq_true'] at h
    simp [Expr.hasInterp, h.1, h.2]
  | _, .ParenExpr _, h => by
    simp only [Expr.covered, Bool.not_eq_true'] at h
    simp [Expr.hasInterp, h]
  | _, .SelectorExpr _ _, h => by
    simp only [Expr.covered, Bool.not_eq_true'] at h
    simp [Expr.hasInterp, h]
  | _, .IndexExpr _ _, h => by
    simp only [Expr.covered, Bool.and_eq_true, Bool.not_eq_true'] at h
    simp [Expr.hasInterp, h.1, h.2]
  | _, .UnaryExpr _ _, h => by
    simp only [Expr.covered, Bool.not_eq_true'] at h
    simp [Expr.hasInterp, h]
  | _, .BinaryExpr _ _ _, h => by
    simp only [Expr.covered, Bool.and_eq_true, Bool.not_eq_true'] at h
    simp [Expr.hasInterp, h.1, h.2]
theorem transpileStmts_covered :
    (ss : List Stmt) → coveredStmts ss = true →
      ∃ ss', transpileStmts ss = some ss' ∧ hasInterpStmts ss' = false
  | [], _ => ⟨_, rfl, rfl⟩
  | v :: rest, h => by
    simp only [coveredStmts, Bool.and_eq_true] at h
    obtain ⟨_, e1, c1⟩ := transpileStmt_covered v h.1
    obtain ⟨_, e2, c2⟩ := transpileStmts_covered rest h.2
    simp [e1, e2, c1, c2, hasInterpStmts]
theorem transpileStmt_covered :
    (s : Stmt) → s.covered = true → ∃ s', transpileStmt s = some s' ∧ s'.hasInterp = false
  | .nil, _ => ⟨_, rfl, rfl⟩
  | .DeclStmt d, h => by
    obtain ⟨_, e1, c1⟩ := transpileDecl_covered d (by simpa [Stmt.covered] using h)
    simp [e1, c1, Stmt.hasInterp]
  | .ExprStmt x, h => by
    obtain ⟨_, e1, c1, -⟩ := transpileExpr_covered true x (by simpa [Stmt.covered] using h)
    simp [e1, c1, Stmt.hasInterp]
  | .SendStmt _ value, h => by
    simp only [Stmt.covered, Bool.and_eq_true, Bool.not_eq_true'] at h
    obtain ⟨_, e1, c1, -⟩ := transpileExpr_covered true value h.2
    simp [e1, c1, h.1, Stmt.hasInterp]
  | .AssignStmt _ _ rhs, h => by
    simp only [Stmt.covered, Bool.and_eq_true, Bool.not_eq_true'] at h
    obtain ⟨_, e1, c1⟩ := transpileExprs_covered rhs h.2
    simp [e1, c1, h.1, Stmt.hasInterp]
  | .GoStmt fn args, h => by
    simp only [Stmt.covered, Bool.and_eq_true] at h
    obtain ⟨_, e1, c1, -⟩ := transpileExpr_covered true fn h.1
    obtain ⟨_, e2, c2⟩ := transpileExprs_covered args h.2
    simp [e1, e2, c1, c2, Stmt.hasInterp]
  | .DeferStmt fn args, h => by
    simp only [Stmt.covered, Bool.and_eq_true] at h
    obtain ⟨_, e1, c1, -⟩ := transpileExpr_covered true fn h.1
    obtain ⟨_, e2, c2⟩ := transpileExprs_covered args h.2
    simp [e1, e2, c1, c2, Stmt.hasInterp]
  | .ReturnStmt results, h => by
    obtain ⟨_, e1, c1⟩ := transpileExprs_covered results (by simpa [Stmt.covered] using h)
    simp [e1, c1, Stmt.hasInterp]
  | .BlockStmt list, h => by
    obtain ⟨_, e1, c1⟩ := transpileStmts_covered list (by simpa [Stmt.covered] using h)
    simp [e1, c1, Stmt.hasInterp]
  | .IfStmt init cond (some list) els, h => by
    simp only [Stmt.covered, Bool.and_eq_true] at h
    obtain ⟨_, e1, c1⟩ := transpileStmt_covered init h.1.1.1
    obtain ⟨_, e2, c2, -⟩ := transpileExpr_covered true cond h.1.1.2
    obtain ⟨_, e3, c3⟩ := transpileStmts_covered list h.1.2
    obtain ⟨_, e4, c4⟩ := transpileStmt_covered els h.2
    simp [e1, e2, e3, e4, c1, c2, c3, c4, Stmt.hasInterp]
  | .IfStmt _ _ none _, h => by simp [Stmt.covered] at h
  | .SwitchStmt init tag (some list), h => by
    simp only [Stmt.covered, Bool.and_eq_true] at h
    obtain ⟨_, e1, c1⟩ := transpileStmt_covered init h.1.1
    obtain ⟨_, e2, c2, -⟩ := transpileExpr_covered true tag h.1.2
    obtain ⟨_, e3, c3⟩ := transpileStmts_covered list h.2
    simp [e1, e2, e3, c1, c2, c3, Stmt.hasInterp]
  | .SwitchStmt _ _ none, h => by simp [Stmt.covered] at h
  | .CaseClause list body, h => by
    simp only [Stmt.covered, Bool.and_eq_true] at h
    obtain ⟨_, e1, c1⟩ := transpileExprs_covered list h.1
    obtain ⟨_, e2, c2⟩ := transpileStmts_covered body h.2
    simp [e1, e2, c1, c2, Stmt.hasInterp]
  | .TypeSwitchStmt init assign (some list), h => by
    simp only [Stmt.covered, Bool.and_eq_true] at h
    obtain ⟨_, e1, c1⟩ := transpileStmt_covered init h.1.1
    obtain ⟨_, e2, c2⟩ := transpileStmt_covered assign h.1.2
    obtain ⟨_, e3, c3⟩ := transpileStmts_covered list h.2
    simp [e1, e2, e3, c1, c2, c3, Stmt.hasInterp]
  | .TypeSwitchStmt _ _ none, h => by simp [Stmt.covered] at h
  | .SelectStmt (some list), h => by
    obtain ⟨_, e1, c1⟩ := transpileStmts_covered list (by simpa [Stmt.covered] using h)
    simp [e1, c1, Stmt.hasInterp]
  | .SelectStmt none, h => by simp [Stmt.covered] at h
  | .CommClause _ _, h => by
    simp only [Stmt.covered, Bool.and_eq_true, Bool.not_eq_true'] at h
    simp [h.1, h.2, Stmt.hasInterp]
  | .ForStmt init cond post (some list), h => by
    simp only [Stmt.covered, Bool.and_eq_true] at h
    obtain ⟨_, e1, c1⟩ := transpileStmt_covered init h.1.1.1
    obtain ⟨_, e2, c2, -⟩ := transpileExpr_covered true cond h.1.1.2
    obtain ⟨_, e3, c3⟩ := transpileStmt_covered post h.1.2
    obtain ⟨_, e4, c4⟩ := transpileStmts_covered list h.2
    simp [e1, e2, e3, e4, c1, c2, c3, c4, Stmt.hasInterp]
  | .ForStmt _ _ _ none, h => by simp [Stmt.covered] at h
  | .RangeStmt _ _ _ (some list), h => by
    simp only [Stmt.covered, Bool.and_eq_true, Bool.not_eq_true'] at h
    obtain ⟨_, e1, c1⟩ := transpileStmts_covered list h.2
    simp [e1, c1, h.1.1.1, h.1.1.2, h.1.2, Stmt.hasInterp]
  | .RangeStmt _ _ _ none, h => by simp [Stmt.covered] at h
end

theorem transpileDecls_covered :
    (ds : List Decl) → coveredDecls ds = true →
      ∃ ds', transpileDecls ds = some ds' ∧ hasInterpDecls ds' = false
  | [], _ => ⟨_, rfl, rfl⟩
  | d :: rest, h => by
    simp only [coveredDecls, Bool.and_eq_true] at h
    obtain ⟨_, e1, c1⟩ := transpileDecl_covered d h.1
    obtain ⟨_, e2, c2⟩ := transpileDecls_covered rest h.2
    simp [e1, e2, c1, c2, hasInterpDecls]

/-! ## The walker on a list visits every element -/

theorem transpileExprs_append (pre post : List Expr) :
    transpileExprs (pre ++ post)
      = (transpileExprs pre).bind fun pre' =>
          (transpileExprs post).bind fun post' => some (pre' ++ post') := by
  induction pre with
  | nil =>
    rw [List.nil_append]
    cases transpileExprs post <;> rfl
  | cons v rest ih =>
    simp only [List.cons_append, transpileExprs_cons, ih]
    cases transpileExpr v <;> cases transpileExprs rest <;> cases transpileExprs post <;> simp

theorem transpileStmts_append (pre post : List Stmt) :
    transpileStmts (pre ++ post)
      = (transpileStmts pre).bind fun pre' =>
          (transpileStmts post).bind fun post' => some (pre' ++ post') := by
  induction pre with
  | nil =>
    rw [List.nil_append]
    cases transpileStmts post <;> rfl
  | cons v rest ih =>
    simp only [List.cons_append, transpileStmts_cons, ih]
    cases transpileStmt v <;> cases transpileStmts rest <;> cases transpileStmts post <;> simp

theorem transpileExprs_length :
    (es es' : List Expr) → transpileExprs es = some es' → es'.length = es.length
  | [], es', h => by
    simp at h
    subst h
    rfl
  | v :: rest, es', h => by
    simp only [transpileExprs_cons, Option.bind_eq_some] at h
    obtain ⟨w, _, r, hr, h⟩ := h
    simp only [Option.some.injEq] at h
    subst h
    simp [transpileExprs_length rest r hr]

theorem transpileStmts_length :
    (ss ss' : List Stmt) → transpileStmts ss = some ss' → ss'.length = ss.length
  | [], ss', h => by
    simp at h
    subst h
    rfl
  | v :: rest, ss', h => by
    simp only [transpileStmts_cons, Option.bind_eq_some] at h
    obtain ⟨w, _, r, hr, h⟩ := h
    simp only [Option.some.injEq] at h
    subst h
    simp [transpileStmts_length rest r hr]

/-- A closure at any place among the arguments of a call is entered, and a
literal that is an expression statement at any place of its body is replaced
by its call. -/
theorem transpileExpr_call_closure (fn : Expr) (pre post : List Expr) (sp sq : List Stmt)
    (segments : List Segment) (hpre : bodiesExprs pre = true) (hpost : bodiesExprs post = true)
    (hsp : bodiesStmts sp = true) (hsq : bodiesStmts sq = true) :
    ∃ fn' pre' post' sp' sq',
      transpileExpr (.CallExpr fn
          (pre ++ .FuncLit (some (sp ++ .ExprStmt (.InterpLit segments) :: sq)) :: post))
        = some (.CallExpr fn'
            (pre' ++ .FuncLit (some (sp' ++ .ExprStmt (lowerInterpLit segments) :: sq')) :: post'))
      ∧ pre'.length = pre.length ∧ post'.length = post.length
      ∧ sp'.length = sp.length ∧ sq'.length = sq.length := by
  obtain ⟨pre', e1⟩ := transpileExprs_total pre hpre
  obtain ⟨post', e2⟩ := transpileExprs_total post hpost
  obtain ⟨sp', e3⟩ := transpileStmts_total sp hsp
  obtain ⟨sq', e4⟩ := transpileStmts_total sq hsq
  refine ⟨fn, pre', post', sp', sq', ?_, transpileExprs_length _ _ e1,
    transpileExprs_length _ _ e2, transpileStmts_length _ _ e3, transpileStmts_length _ _ e4⟩
  simp [transpileExprs_append, transpileStmts_append, e1, e2, e3, e4, rangeElem]

/-! ## The walker stops where it arrives at a missing body -/

mutual
theorem transpileDecl_nilBody :
    (d : Decl) → d.meetsNilBody = true → transpileDecl d = none
  | .FuncDecl _ (some list), h => by
    simp [transpileStmts_nilBody list (by simpa [Decl.meetsNilBody] using h)]
  | .FuncDecl _ none, _ => rfl
  | .GenDecl _ specs, h => by
    simp [transpileSpecs_nilBody specs (by simpa [Decl.meetsNilBody] using h)]
theorem transpileSpecs_nilBody :
    (specs : List Spec) → meetsNilBodySpecs specs = true → transpileSpecs specs = none
  | [], h => by simp [meetsNilBodySpecs] at h
  | .ValueSpec _ values :: rest, h => by
    simp only [meetsNilBodySpecs, Bool.or_eq_true] at h
    rcases h with h | h
    · simp [transpileExprs_nilBody values h]
    · simp [transpileSpecs_nilBody rest h]
  | .TypeSpec _ _ :: rest, h => by
    simp only [meetsNilBodySpecs] at h
    simp [transpileSpecs_nilBody rest h]
  | .ImportSpec _ _ :: rest, h => by
    simp only [meetsNilBodySpecs] at h
    simp [transpileSpecs_nilBody rest h]
theorem transpileExprs_nilBody :
    (es : List Expr) → meetsNilBodyExprs es = true → transpileExprs es = none
  | [], h => by simp [meetsNilBodyExprs] at h
  | v :: rest, h => by
    simp only [meetsNilBodyExprs, Bool.or_eq_true] at h
    rcases h with h | h
    · simp [transpileExpr_nilBody v h]
    · simp [transpileExprs_nilBody rest h]
theorem transpileExpr_nilBody :
    (e : Expr) → e.meetsNilBody = true → transpileExpr e = none
  | .CallExpr _ args, h => by
    simp [transpileExprs_nilBody args (by simpa [Expr.meetsNilBody] using h)]
  | .FuncLit none, _ => rfl
  | .FuncLit (some list), h => by
    simp [transpileStmts_nilBody list (by simpa [Expr.meetsNilBody] using h)]
  | .InterpLit _, h => by simp [Expr.meetsNilBody] at h
  | .nil, h => by simp [Expr.meetsNilBody] at h
  | .Ident _, h => by simp [Expr.meetsNilBody] at h
  | .BasicLit _ _, h => by simp [Expr.meetsNilBody] at h
  | .CompositeLit _ _, h => by simp [Expr.meetsNilBody] at h
  | .ParenExpr _, h => by simp [Expr.meetsNilBody] at h
  | .SelectorExpr _ _, h => by simp [Expr.meetsNilBody] at h
  | .IndexExpr _ _, h => by simp [Expr.meetsNilBody] at h
  | .UnaryExpr _ _, h => by simp [Expr.meetsNilBody] at h
  | .BinaryExpr _ _ _, h => by simp [Expr.meetsNilBody] at h
theorem transpileStmts_nilBody :
    (ss : List Stmt) → meetsNilBodyStmts ss = true → transpileStmts ss = none
  | [], h => by simp [meetsNilBodyStmts] at h
  | v :: rest, h => by
    simp only [meetsNilBodyStmts, Bool.or_eq_true] at h
    rcases h with h | h
    · simp [transpileStmt_nilBody v h]
    · simp [transpileStmts_nilBody rest h]
theorem transpileStmt_nilBody :
    (s : Stmt) → s.meetsNilBody = true → transpileStmt s = none
  | .nil, h => by simp [Stmt.meetsNilBody] at h
  | .DeclStmt d, h => by
    simp [transpileDecl_nilBody d (by simpa [Stmt.meetsNilBody] using h)]
  | .ExprStmt x, h => by
    simp [transpileExpr_nilBody x (by simpa [Stmt.meetsNilBody] using h)]
  | .SendStmt _ value, h => by
    simp [transpileExpr_nilBody value (by simpa [Stmt.meetsNilBody] using h)]
  | .AssignStmt _ _ rhs, h => by
    simp [transpileExprs_nilBody rhs (by simpa [Stmt.meetsNilBody] using h)]
  | .GoStmt fn args, h => by
    simp only [Stmt.meetsNilBody, Bool.or_eq_true] at h
    rcases h with h | h
    · simp [transpileExprs_nilBody args h]
    · simp [transpileExpr_nilBody fn h]
  | .DeferStmt fn args, h => by
    simp only [Stmt.meetsNilBody, Bool.or_eq_true] at h
    rcases h with h | h
    · simp [transpileExprs_nilBody args h]
    · simp [transpileExpr_nilBody fn h]
  | .ReturnStmt results, h => by
    simp [transpileExprs_nilBody results (by simpa [Stmt.meetsNilBody] using h)]
  | .BlockStmt list, h => by
    simp [transpileStmts_nilBody list (by simpa [Stmt.meetsNilBody] using h)]
  | .IfStmt init cond (some list) els, h => by
    simp only [Stmt.meetsNilBody, Bool.or_eq_true] at h
    rcases h with ((h | h) | h) | h
    · simp [transpileStmt_nilBody init h]
    · simp [transpileExpr_nilBody cond h]
    · simp [transpileStmt_nilBody els h]
    · simp [transpileStmts_nilBody list h]
  | .IfStmt _ _ none _, _ => rfl
  | .SwitchStmt init tag (some list), h => by
    simp only [Stmt.meetsNilBody, Bool.or_eq_true] at h
    rcases h with (h | h) | h
    · simp [transpileStmt_nilBody init h]
    · simp [transpileExpr_nilBody tag h]
    · simp [transpileStmts_nilBody list h]
  | .SwitchStmt _ _ none, _ => rfl
  | .CaseClause list body, h => by
    simp only [Stmt.meetsNilBody, Bool.or_eq_true] at h
    rcases h with h | h
    · simp [transpileExprs_nilBody list h]
    · simp [transpileStmts_nilBody body h]
  | .TypeSwitchStmt init assign (some list), h => by
    simp only [Stmt.meetsNilBody, Bool.or_eq_true] at h
    rcases h with (h | h) | h
    · simp [transpileStmt_nilBody init h]
    · simp [transpileStmt_nilBody assign h]
    · simp [transpileStmts_nilBody list h]
  | .TypeSwitchStmt _ _ none, _ => rfl
  | .SelectStmt (some list), h => by
    simp [transpileStmts_nilBody list (by simpa [Stmt.meetsNilBody] using h)]
  | .SelectStmt none, _ => rfl
  | .CommClause _ _, h => by simp [Stmt.meetsNilBody] at h
  | .ForStmt init cond post (some list), h => by
    simp only [Stmt.meetsNilBody, Bool.or_eq_true] at h
    rcases h with ((h | h) | h) | h
    · simp [transpileStmt_nilBody init h]
    · simp [transpileExpr_nilBody cond h]
    · simp [transpileStmts_nilBody list h]
    · simp [transpileStmt_nilBody post h]
  | .ForStmt _ _ _ none, _ => rfl
  | .RangeStmt _ _ _ (some list), h => by
    simp [transpileStmts_nilBody list (by simpa [Stmt.meetsNilBody] using h)]
  | .RangeStmt _ _ _ none, _ => rfl
end

theorem transpileDecls_nilBody :
    (ds : List Decl) → meetsNilBodyDecls ds = true → transpileDecls ds = none
  | [], h => by simp [meetsNilBodyDecls] at h
  | d :: rest, h => by
    simp only [meetsNilBodyDecls, Bool.or_eq_true] at h
    rcases h with h | h
    · simp [transpileDecl_nilBody d h]
    · simp [transpileDecls_nilBody rest h]

/-! ## The claims -/

/-- C1, as stated, fails: in `func main() { ch <- "> " + $"n={n}" }` every node
kind is one of the coverage table, yet the pass returns the file as it was,
the interpolation literal still under the binary expression. -/
theorem processFile_binary_survives :
    processFile binaryFile = some binaryFile ∧ binaryFile.hasInterp = true :=
  ⟨rfl, rfl⟩

/-- C1, amended: for every file in which each interpolation literal directly
occupies a single-expression slot that the walker reaches (`File.covered`),
the pass returns, and no `InterpLit` node is reachable from any declaration of
the file it returns. -/
theorem processFile_covered (file : File) (h : file.covered = true) :
    ∃ file', processFile file = some file' ∧ file'.hasInterp = false := by
  obtain ⟨ds, e1, c1⟩ := transpileDecls_covered file.Decls h
  exact ⟨{ Decls := ds, Imports := file.Imports }, by simp [processFile, e1], c1⟩

theorem processFile_covered_witness :
    coveredFile.covered = true ∧ coveredFile.hasInterp = true
      ∧ ∃ file', processFile coveredFile = some file' ∧ file'.hasInterp = false :=
  ⟨rfl, rfl, processFile_covered coveredFile rfl⟩

/-- C2, at the segments of the spec's own example `["a=", expr1, ", b=",
(expr2, "d")]`: the format string the lowering builds is `%s%%%sa=%v, b=d`,
not `a=%v, b=%d`. The directive branch calls `fmt.Sprint`, which has no format
argument and prints its three operands one after the other. -/
theorem lowerInterpLit_directive_format :
    transpileExpr (.InterpLit abSegments)
      = some (.CallExpr (.BasicLit .STRING "fmt.Sprintf")
          [.BasicLit .STRING "%s%%%sa=%v, b=d", .Ident "expr1", .Ident "expr2"]) := by
  rfl

/-- C3: for every interpolation literal with `k` expression segments,
`transpileExpr` writes a call whose function is the `fmt.Sprintf` node and
whose arguments are a string literal followed by exactly the embedded
expressions of the expression segments, unmodified and in order: `k + 1`
arguments in all. -/
theorem lowerInterpLit_shape (segments : List Segment) :
    ∃ fmtstr : String,
      transpileExpr (.InterpLit segments)
        = some (.CallExpr (.BasicLit .STRING "fmt.Sprintf")
            (.BasicLit .STRING fmtstr :: embedded segments))
      ∧ (Expr.BasicLit .STRING fmtstr :: embedded segments).length
          = exprSegments segments + 1 := by
  refine ⟨(segments.foldl segmentStep ("", [Expr.nil])).1, ?_, ?_⟩
  · simp [lowerInterpLit_eq]
  · simp [length_embedded]

/-- C4, at `func main() { ch <- $"n={n}" }` with an empty import table: the
file holds an interpolation literal, the pass lowers it to a `fmt.Sprintf`
call, and the import table it returns is still empty. No walker function calls
`addImport`. -/
theorem processFile_registers_no_import :
    sendFile.hasInterp = true ∧ findImport "fmt" sendFile.Imports = some false
      ∧ processFile sendFile
          = some { Decls := [.FuncDecl "main" (some [.SendStmt (.Ident "ch") nLowered])],
                   Imports := [] } :=
  ⟨rfl, rfl, rfl⟩

/-- C5: on a file that contains no `InterpLit` node the pass writes nothing.
If it returns, it returns the file itself, import table and tree unchanged
(the only other outcome is the nil-`Body` dereference, which ends the program);
and it does return whenever every body of the file is present. -/
theorem processFile_plain (file : File) (h : file.hasInterp = false) :
    (processFile file = none ∨ processFile file = some file)
      ∧ (file.bodies = true → processFile file = some file) := by
  have hp : processFile file = none ∨ processFile file = some file := by
    rcases transpileDecls_plain file.Decls h with e1 | e1 <;> simp [processFile, e1]
  refine ⟨hp, fun hb => ?_⟩
  obtain ⟨ds, e1⟩ := transpileDecls_total file.Decls hb
  rcases hp with e2 | e2
  · simp [processFile, e1] at e2
  · exact e2

theorem processFile_plain_witness :
    plainFile.hasInterp = false ∧ plainFile.bodies = true
      ∧ processFile plainFile = some plainFile :=
  ⟨rfl, rfl, (processFile_plain plainFile rfl).2 rfl⟩

/-- C6: an interpolation literal with zero segments is lowered to a call whose
only argument is the string literal with the empty value. -/
theorem lowerInterpLit_empty :
    transpileExpr (.InterpLit [])
      = some (.CallExpr (.BasicLit .STRING "fmt.Sprintf") [.BasicLit .STRING ""]) := by
  rfl

/-- C7 fails in every list-valued slot: an interpolation literal that is a
call argument, a go or defer argument, a return result, an assignment
right-hand side, a case-clause match expression or a value-spec initializer is
still in its list after the walker has processed the owning node. The loops
pass the address of the range variable, a copy of the element, to
`transpileExpr`. -/
theorem list_slot_keeps_literal (segments : List Segment) :
    transpileStmt (.ExprStmt (.CallExpr (.Ident "run") [.InterpLit segments]))
        = some (.ExprStmt (.CallExpr (.Ident "run") [.InterpLit segments]))
      ∧ transpileStmt (.GoStmt (.Ident "run") [.InterpLit segments])
        = some (.GoStmt (.Ident "run") [.InterpLit segments])
      ∧ transpileStmt (.DeferStmt (.Ident "run") [.InterpLit segments])
        = some (.DeferStmt (.Ident "run") [.InterpLit segments])
      ∧ transpileStmt (.ReturnStmt [.InterpLit segments])
        = some (.ReturnStmt [.InterpLit segments])
      ∧ transpileStmt (.AssignStmt [.Ident "s"] .DEFINE [.InterpLit segments])
        = some (.AssignStmt [.Ident "s"] .DEFINE [.InterpLit segments])
      ∧ transpileStmt (.CaseClause [.InterpLit segments] [])
        = some (.CaseClause [.InterpLit segments] [])
      ∧ transpileDecl (.GenDecl .VAR [.ValueSpec ["s"] [.InterpLit segments]])
        = some (.GenDecl .VAR [.ValueSpec ["s"] [.InterpLit segments]]) :=
  ⟨rfl, rfl, rfl, rfl, rfl, rfl, rfl⟩

/-- C8, at `run(func() { $"n={n}"; s := $"n={n}"; return $"n={n}" })`: when
the walker processes the statement, the literal that is the closure's
expression statement is lowered, while the literals that are its assignment
right-hand side and its return result stay as they were. -/
theorem closure_list_slots_keep_literal :
    transpileStmt (.ExprStmt (.CallExpr (.Ident "run") [.FuncLit (some closureBody)]))
      = some (.ExprStmt (.CallExpr (.Ident "run") [.FuncLit (some
          [.ExprStmt nLowered,
           .AssignStmt [.Ident "s"] .DEFINE [.InterpLit nSegments],
           .ReturnStmt [.InterpLit nSegments]])])) := by
  rfl

/-- C9: when an interpolation literal directly occupies the single-expression
slot of a statement (the expression of an expression statement, the value of a
send, the condition of an if or for, the tag of a switch, the function of a go
or defer call) and every body of the statement is present, `transpileStmt`
returns the statement with that slot holding a call expression, no longer the
literal: the call of `fmt.Sprintf` on a format literal and the embedded
expressions, which is what `transpileExpr` writes for the literal. -/
theorem transpileStmt_singleSlot (s : Stmt) (segments : List Segment)
    (hslot : singleSlot s = some (.InterpLit segments)) (hb : s.bodies = true) :
    ∃ s' fmtstr, transpileStmt s = some s'
      ∧ singleSlot s' = some (.CallExpr (.BasicLit .STRING "fmt.Sprintf")
          (.BasicLit .STRING fmtstr :: embedded segments))
      ∧ transpileExpr (.InterpLit segments)
          = some (.CallExpr (.BasicLit .STRING "fmt.Sprintf")
              (.BasicLit .STRING fmtstr :: embedded segments)) := by
  have key : ∃ s', transpileStmt s = some s'
      ∧ singleSlot s' = some (lowerInterpLit segments) := by
    cases s with
    | ExprStmt x =>
      simp only [singleSlot, Option.some.injEq] at hslot
      subst hslot
      simp [singleSlot]
    | SendStmt ch value =>
      simp only [singleSlot, Option.some.injEq] at hslot
      subst hslot
      simp [singleSlot]
    | GoStmt fn args =>
      simp only [singleSlot, Option.some.injEq] at hslot
      subst hslot
      simp only [Stmt.bodies, Bool.and_eq_true] at hb
      obtain ⟨_, e1⟩ := transpileExprs_total args hb.2
      simp [singleSlot, e1]
    | DeferStmt fn args =>
      simp only [singleSlot, Option.some.injEq] at hslot
      subst hslot
      simp only [Stmt.bodies, Bool.and_eq_true] at hb
      obtain ⟨_, e1⟩ := transpileExprs_total args hb.2
      simp [singleSlot, e1]
    | IfStmt init cond body els =>
      simp only [singleSlot, Option.some.injEq] at hslot
      subst hslot
      cases body with
      | none => simp [Stmt.bodies] at hb
      | some list =>
        simp only [Stmt.bodies, Bool.and_eq_true] at hb
        obtain ⟨_, e1⟩ := transpileStmt_total init hb.1.1.1
        obtain ⟨_, e2⟩ := transpileStmts_total list hb.1.2
        obtain ⟨_, e3⟩ := transpileStmt_total els hb.2
        simp [singleSlot, e1, e2, e3]
    | ForStmt init cond post body =>
      simp only [singleSlot, Option.some.injEq] at hslot
      subst hslot
      cases body with
      | none => simp [Stmt.bodies] at hb
      | some list =>
        simp only [Stmt.bodies, Bool.and_eq_true] at hb
        obtain ⟨_, e1⟩ := transpileStmt_total init hb.1.1.1
        obtain ⟨_, e2⟩ := transpileStmt_total post hb.1.2
        obtain ⟨_, e3⟩ := transpileStmts_total list hb.2
        simp [singleSlot, e1, e2, e3]
    | SwitchStmt init tag body =>
      simp only [singleSlot, Option.some.injEq] at hslot
      subst hslot
      cases body with
      | none => simp [Stmt.bodies] at hb
      | some list =>
        simp only [Stmt.bodies, Bool.and_eq_true] at hb
        obtain ⟨_, e1⟩ := transpileStmt_total init hb.1.1
        obtain ⟨_, e2⟩ := transpileStmts_total list hb.2
        simp [singleSlot, e1, e2]
    | _ => simp [singleSlot] at hslot
  obtain ⟨s', e1, e2⟩ := key
  refine ⟨s', (segments.foldl segmentStep ("", [Expr.nil])).1, e1, ?_, ?_⟩
  · rw [e2, lowerInterpLit_eq]
  · rw [transpileExpr_InterpLit, lowerInterpLit_eq]

theorem transpileStmt_singleSlot_witness :
    singleSlot ifStmt = some (.InterpLit nSegments) ∧ ifStmt.bodies = true
      ∧ ∃ s' fmtstr, transpileStmt ifStmt = some s'
          ∧ singleSlot s' = some (.CallExpr (.BasicLit .STRING "fmt.Sprintf")
              (.BasicLit .STRING fmtstr :: embedded nSegments))
          ∧ transpileExpr (.InterpLit nSegments)
              = some (.CallExpr (.BasicLit .STRING "fmt.Sprintf")
                  (.BasicLit .STRING fmtstr :: embedded nSegments)) :=
  ⟨rfl, rfl, transpileStmt_singleSlot ifStmt nSegments rfl rfl⟩

/-- C10, as stated, fails: `transpileExpr` returns a parenthesised, unary,
binary, index, selector or composite-literal expression that holds an
interpolation literal exactly as it received it. -/
theorem transpileExpr_operand_survives :
    transpileExpr (.ParenExpr (.InterpLit nSegments))
        = some (.ParenExpr (.InterpLit nSegments))
      ∧ transpileExpr (.UnaryExpr .NOT (.InterpLit nSegments))
        = some (.UnaryExpr .NOT (.InterpLit nSegments))
      ∧ transpileExpr (.BinaryExpr (.Ident "s") .ADD (.InterpLit nSegments))
        = some (.BinaryExpr (.Ident "s") .ADD (.InterpLit nSegments))
      ∧ transpileExpr (.IndexExpr (.Ident "m") (.InterpLit nSegments))
        = some (.IndexExpr (.Ident "m") (.InterpLit nSegments))
      ∧ transpileExpr (.SelectorExpr (.InterpLit nSegments) "Len")
        = some (.SelectorExpr (.InterpLit nSegments) "Len")
      ∧ transpileExpr (.CompositeLit (.Ident "T") [.InterpLit nSegments])
        = some (.CompositeLit (.Ident "T") [.InterpLit nSegments]) :=
  ⟨rfl, rfl, rfl, rfl, rfl, rfl⟩

/-- C10, amended: `transpileExpr` descends into every argument of a call
expression and into every statement of the body of a function literal. A
closure at any place among the arguments is entered and a literal that is an
expression statement at any place of its body becomes its `fmt.Sprintf` call,
the lists keeping their lengths; and when every literal under the arguments,
or under the body of a function literal, sits in a single-expression slot the
walker reaches, none is left there. A unary, binary, parenthesised, index,
selector or composite-literal expression is returned as it is, whatever it
holds. -/
theorem transpileExpr_descent (segments : List Segment) (fn typ x y : Expr) (op : Token)
    (sel : String) (elts pre post args : List Expr) (sp sq list : List Stmt)
    (hpre : bodiesExprs pre = true) (hpost : bodiesExprs post = true)
    (hsp : bodiesStmts sp = true) (hsq : bodiesStmts sq = true)
    (hargs : coveredExprs args = true) (hlist : coveredStmts list = true) :
    (∃ fn' pre' post' sp' sq' fmtstr,
        transpileExpr (.CallExpr fn
            (pre ++ .FuncLit (some (sp ++ .ExprStmt (.InterpLit segments) :: sq)) :: post))
          = some (.CallExpr fn'
              (pre' ++ .FuncLit (some (sp' ++ .ExprStmt
                (.CallExpr (.BasicLit .STRING "fmt.Sprintf")
                  (.BasicLit .STRING fmtstr :: embedded segments)) :: sq')) :: post'))
        ∧ pre'.length = pre.length ∧ post'.length = post.length
        ∧ sp'.length = sp.length ∧ sq'.length = sq.length)
      ∧ (∃ fn' args', transpileExpr (.CallExpr fn args) = some (.CallExpr fn' args')
          ∧ args'.length = args.length ∧ hasInterpExprs args' = false)
      ∧ (∃ list', transpileExpr (.FuncLit (some list)) = some (.FuncLit (some list'))
          ∧ list'.length = list.length ∧ hasInterpStmts list' = false)
      ∧ transpileExpr (.UnaryExpr op x) = some (.UnaryExpr op x)
      ∧ transpileExpr (.BinaryExpr x op y) = some (.BinaryExpr x op y)
      ∧ transpileExpr (.ParenExpr x) = some (.ParenExpr x)
      ∧ transpileExpr (.IndexExpr x y) = some (.IndexExpr x y)
      ∧ transpileExpr (.SelectorExpr x sel) = some (.SelectorExpr x sel)
      ∧ transpileExpr (.CompositeLit typ elts) = some (.CompositeLit typ elts) := by
  refine ⟨?_, ?_, ?_, rfl, rfl, rfl, rfl, rfl, rfl⟩
  · obtain ⟨fn', pre', post', sp', sq', e, h1, h2, h3, h4⟩ :=
      transpileExpr_call_closure fn pre post sp sq segments hpre hpost hsp hsq
    rw [lowerInterpLit_eq] at e
    exact ⟨fn', pre', post', sp', sq', _, e, h1, h2, h3, h4⟩
  · obtain ⟨args', e1, c1⟩ := transpileExprs_covered args hargs
    exact ⟨fn, args', by simp [e1], transpileExprs_length _ _ e1, c1⟩
  · obtain ⟨list', e1, c1⟩ := transpileStmts_covered list hlist
    exact ⟨list', by simp [e1], transpileStmts_length _ _ e1, c1⟩

theorem transpileExpr_descent_witness :
    (bodiesExprs argsBefore = true ∧ bodiesExprs argsAfter = true
        ∧ bodiesStmts stmtsBefore = true ∧ bodiesStmts stmtsAfter = true
        ∧ coveredExprs closureArgs = true ∧ hasInterpExprs closureArgs = true
        ∧ coveredStmts [.SendStmt (.Ident "ch") (.InterpLit nSegments)] = true)
      ∧ (∃ fn' pre' post' sp' sq' fmtstr,
          transpileExpr (.CallExpr (.Ident "run")
              (argsBefore ++ .FuncLit (some
                (stmtsBefore ++ .ExprStmt (.InterpLit nSegments) :: stmtsAfter)) :: argsAfter))
            = some (.CallExpr fn'
                (pre' ++ .FuncLit (some (sp' ++ .ExprStmt
                  (.CallExpr (.BasicLit .STRING "fmt.Sprintf")
                    (.BasicLit .STRING fmtstr :: embedded nSegments)) :: sq')) :: post'))
          ∧ pre'.length = argsBefore.length ∧ post'.length = argsAfter.length
          ∧ sp'.length = stmtsBefore.length ∧ sq'.length = stmtsAfter.length)
      ∧ (∃ fn' args', transpileExpr (.CallExpr (.Ident "run") closureArgs)
            = some (.CallExpr fn' args')
          ∧ args'.length = closureArgs.length ∧ hasInterpExprs args' = false)
      ∧ (∃ list', transpileExpr (.FuncLit (some [.SendStmt (.Ident "ch") (.InterpLit nSegments)]))
            = some (.FuncLit (some list'))
          ∧ list'.length = [Stmt.SendStmt (.Ident "ch") (.InterpLit nSegments)].length
          ∧ hasInterpStmts list' = false) :=
  have h := transpileExpr_descent nSegments (.Ident "run") .nil .nil .nil .NOT "" []
    argsBefore argsAfter closureArgs stmtsBefore stmtsAfter
    [.SendStmt (.Ident "ch") (.InterpLit nSegments)] rfl rfl rfl rfl rfl rfl
  ⟨⟨rfl, rfl, rfl, rfl, rfl, rfl, rfl⟩, h.1, h.2.1, h.2.2.1⟩

/-! ## The import registrar -/

theorem findImport_append_new (imp : String) (path : Option String) :
    (imports : List ImportSpec) → findImport imp imports = some false →
      findImport imp (imports ++ [{ Name := some imp, Path := path }]) = some true
  | [], _ => by simp [findImport]
  | i :: rest, h => by
    cases hn : i.Name with
    | none => simp [findImport, hn] at h
    | some name =>
      by_cases hne : name = imp
      · simp [findImport, hn, hne] at h
      · simp only [findImport, hn, hne, if_false] at h
        simp [findImport, hn, hne, findImport_append_new imp path rest h]

theorem findImport_named (imp : String) :
    (imports : List ImportSpec) → allNamed imports = true →
      findImport imp imports = some (hasEntry imp imports)
  | [], _ => rfl
  | i :: rest, h => by
    simp only [allNamed, Bool.and_eq_true] at h
    cases hn : i.Name with
    | none => simp [hn] at h
    | some name =>
      by_cases hne : name = imp
      · simp [findImport, hasEntry, hn, hne]
      · simp [findImport, hasEntry, hn, hne, findImport_named imp rest h.2]

/-- On a table all of whose entries have a name, `addImport` leaves the table
as it is when an entry has the name and otherwise appends one entry of that
name at the end. -/
theorem addImport_named (imports : List ImportSpec) (imp : String)
    (h : allNamed imports = true) :
    addImport imports imp
      = some (if hasEntry imp imports then imports
              else imports ++ [{ Name := some imp, Path := none }]) := by
  simp only [addImport, findImport_named imp imports h]
  cases hasEntry imp imports <;> simp

theorem addImport_addImport (imports : List ImportSpec) (imp : String) :
    (addImport imports imp).bind (fun t => addImport t imp) = addImport imports imp := by
  cases h : findImport imp imports with
  | none => simp [addImport, h]
  | some found =>
    cases found with
    | true => simp [addImport, h]
    | false => simp [addImport, h, findImport_append_new imp none imports h]

/-! ## The default format -/

theorem sprintf_default (a : String) : fmt.Sprintf "%s%%v" [a] = a ++ "%v" := by
  cases a; rfl

theorem sprintf_text (a b : String) : fmt.Sprintf "%s%s" [a, b] = a ++ b := by
  cases a; cases b; simp [fmt.Sprintf, fmt.sprintfAux]; rfl

theorem foldl_segmentStep_format (segments : List Segment) (h : noDirective segments = true)
    (acc : String × List Expr) :
    (segments.foldl segmentStep acc).1 = acc.1 ++ defaultFormat segments := by
  induction segments generalizing acc with
  | nil => simp [defaultFormat]
  | cons s rest ih =>
    simp only [noDirective, Bool.and_eq_true, Bool.or_eq_true, beq_iff_eq] at h
    rw [List.foldl_cons, ih h.2]
    cases hx : s.X.isNil with
    | true => simp [segmentStep, defaultFormat, hx, sprintf_text, String.append_assoc]
    | false =>
      have hf : s.Fmt = "" := by simpa [hx] using h.1
      simp [segmentStep, defaultFormat, hx, hf, sprintf_default, String.append_assoc]

/-! ## A second run of the walker on a flat tree changes nothing -/

theorem rangeElem_cases (v w : Expr) :
    (∃ segments, v = .InterpLit segments) ∨ rangeElem v w = w := by
  cases v <;> simp [rangeElem]

theorem bodiesExprs_embedded (segments : List Segment) (h : bodiesSegments segments = true) :
    bodiesExprs (embedded segments) = true := by
  induction segments with
  | nil => rfl
  | cons s rest ih =>
    obtain ⟨x, f⟩ := s
    simp only [bodiesSegments, Bool.and_eq_true] at h
    cases hx : x.isNil <;> simp [embedded, Segment.X, hx, bodiesExprs, ih h.2, h.1]

theorem transpileExpr_lowerInterpLit (segments : List Segment)
    (hf : hasInterpSegments segments = false) (hb : bodiesSegments segments = true) :
    transpileExpr (lowerInterpLit segments) = some (lowerInterpLit segments) := by
  have hs : transpileExprs (embedded segments) = some (embedded segments) := by
    obtain ⟨es, e1⟩ := transpileExprs_total _ (bodiesExprs_embedded segments hb)
    rcases transpileExprs_plain (embedded segments)
      (by rw [hasInterpExprs_embedded]; exact hf) with e2 | e2
    · simp [e1] at e2
    · exact e2
  rw [lowerInterpLit_eq]
  simp [hs, rangeElem]

mutual
theorem transpileDecl_twice :
    (d : Decl) → d.flat = true → d.bodies = true →
      ∃ d', transpileDecl d = some d' ∧ transpileDecl d' = some d'
  | .FuncDecl _ (some list), hf, hb => by
    obtain ⟨_, e1, i1⟩ := transpileStmts_twice list (by simpa [Decl.flat] using hf)
      (by simpa [Decl.bodies] using hb)
    simp [e1, i1]
  | .FuncDecl _ none, _, hb => by simp [Decl.bodies] at hb
  | .GenDecl _ specs, hf, hb => by
    obtain ⟨_, e1, i1⟩ := transpileSpecs_twice specs (by simpa [Decl.flat] using hf)
      (by simpa [Decl.bodies] using hb)
    simp [e1, i1]
theorem transpileSpecs_twice :
    (specs : List Spec) → flatSpecs specs = true → bodiesSpecs specs = true →
      ∃ specs', transpileSpecs specs = some specs' ∧ transpileSpecs specs' = some specs'
  | [], _, _ => ⟨_, rfl, rfl⟩
  | .ValueSpec _ values :: rest, hf, hb => by
    simp only [flatSpecs, Bool.and_eq_true] at hf
    simp only [bodiesSpecs, Bool.and_eq_true] at hb
    obtain ⟨_, e1, i1⟩ := transpileExprs_twice values hf.1 hb.1
    obtain ⟨_, e2, i2⟩ := transpileSpecs_twice rest hf.2 hb.2
    simp [e1, e2, i1, i2]
  | .TypeSpec _ _ :: rest, hf, hb => by
    simp only [flatSpecs, Bool.and_eq_true] at hf
    simp only [bodiesSpecs, Bool.and_eq_true] at hb
    obtain ⟨_, e2, i2⟩ := transpileSpecs_twice rest hf.2 hb.2
    simp [e2, i2]
  | .ImportSpec _ _ :: rest, hf, hb => by
    simp only [flatSpecs] at hf
    simp only [bodiesSpecs] at hb
    obtain ⟨_, e2, i2⟩ := transpileSpecs_twice rest hf hb
    simp [e2, i2]
theorem transpileExprs_twice :
    (es : List Expr) → flatExprs es = true → bodiesExprs es = true →
      ∃ es', transpileExprs es = some es' ∧ transpileExprs es' = some es'
  | [], _, _ => ⟨_, rfl, rfl⟩
  | v :: rest, hf, hb => by
    simp only [flatExprs, Bool.and_eq_true] at hf
    simp only [bodiesExprs, Bool.and_eq_true] at hb
    obtain ⟨w, e1, i1⟩ := transpileExpr_twice v hf.1 hb.1
    obtain ⟨_, e2, i2⟩ := transpileExprs_twice rest hf.2 hb.2
    rcases rangeElem_cases v w with ⟨segments, rfl⟩ | hr
    · simp only [transpileExpr_InterpLit, Option.some.injEq] at e1
      subst e1
      simp [e2, i2, rangeElem]
    · simp [e1, e2, i1, i2, hr]
theorem transpileExpr_twice :
    (e : Expr) → e.flat = true → e.bodies = true →
      ∃ w, transpileExpr e = some w ∧ transpileExpr w = some w
  | .CallExpr _ args, hf, hb => by
    simp only [Expr.flat, Bool.and_eq_true] at hf
    simp only [Expr.bodies, Bool.and_eq_true] at hb
    obtain ⟨_, e1, i1⟩ := transpileExprs_twice args hf.2 hb.2
    simp [e1, i1]
  | .InterpLit segments, hf, hb => by
    simp only [Expr.flat, Bool.not_eq_true'] at hf
    simp only [Expr.bodies] at hb
    simp [transpileExpr_lowerInterpLit segments hf hb]
  | .FuncLit (some list), hf, hb => by
    obtain ⟨_, e1, i1⟩ := transpileStmts_twice list (by simpa [Expr.flat] using hf)
      (by simpa [Expr.bodies] using hb)
    simp [e1, i1]
  | .FuncLit none, _, hb => by simp [Expr.bodies] at hb
  | .nil, _, _ => ⟨_, rfl, rfl⟩
  | .Ident _, _, _ => ⟨_, rfl, rfl⟩
  | .BasicLit _ _, _, _ => ⟨_, rfl, rfl⟩
  | .CompositeLit _ _, _, _ => ⟨_, rfl, rfl⟩
  | .ParenExpr _, _, _ => ⟨_, rfl, rfl⟩
  | .SelectorExpr _ _, _, _ => ⟨_, rfl, rfl⟩
  | .IndexExpr _ _, _, _ => ⟨_, rfl, rfl⟩
  | .UnaryExpr _ _, _, _ => ⟨_, rfl, rfl⟩
  | .BinaryExpr _ _ _, _, _ => ⟨_, rfl, rfl⟩
theorem transpileStmts_twice :
    (ss : List Stmt) → flatStmts ss = true → bodiesStmts ss = true →
      ∃ ss', transpileStmts ss = some ss' ∧ transpileStmts ss' = some ss'
  | [], _, _ => ⟨_, rfl, rfl⟩
  | v :: rest, hf, hb => by
    simp only [flatStmts, Bool.and_eq_true] at hf
    simp only [bodiesStmts, Bool.and_eq_true] at hb
    obtain ⟨_, e1, i1⟩ := transpileStmt_twice v hf.1 hb.1
    obtain ⟨_, e2, i2⟩ := transpileStmts_twice rest hf.2 hb.2
    simp [e1, e2, i1, i2]
theorem transpileStmt_twice :
    (s : Stmt) → s.flat = true → s.bodies = true →
      ∃ s', transpileStmt s = some s' ∧ transpileStmt s' = some s'
  | .nil, _, _ => ⟨_, rfl, rfl⟩
  | .DeclStmt d, hf, hb => by
    obtain ⟨_, e1, i1⟩ := transpileDecl_twice d (by simpa [Stmt.flat] using hf)
      (by simpa [Stmt.bodies] using hb)
    simp [e1, i1]
  | .ExprStmt x, hf, hb => by
    obtain ⟨_, e1, i1⟩ := transpileExpr_twice x (by simpa [Stmt.flat] using hf)
      (by simpa [Stmt.bodies] using hb)
    simp [e1, i1]
  | .SendStmt _ value, hf, hb => by
    simp only [Stmt.flat, Bool.and_eq_true] at hf
    simp only [Stmt.bodies, Bool.and_eq_true] at hb
    obtain ⟨_, e1, i1⟩ := transpileExpr_twice value hf.2 hb.2
    simp [e1, i1]
  | .AssignStmt _ _ rhs, hf, hb => by
    simp only [Stmt.flat, Bool.and_eq_true] at hf
    simp only [Stmt.bodies, Bool.and_eq_true] at hb
    obtain ⟨_, e1, i1⟩ := transpileExprs_twice rhs hf.2 hb.2
    simp [e1, i1]
  | .GoStmt fn args, hf, hb => by
    simp only [Stmt.flat, Bool.and_eq_true] at hf
    simp only [Stmt.bodies, Bool.and_eq_true] at hb
    obtain ⟨_, e1, i1⟩ := transpileExpr_twice fn hf.1 hb.1
    obtain ⟨_, e2, i2⟩ := transpileExprs_twice args hf.2 hb.2
    simp [e1, e2, i1, i2]
  | .DeferStmt fn args, hf, hb => by
    simp only [Stmt.flat, Bool.and_eq_true] at hf
    simp only [Stmt.bodies, Bool.and_eq_true] at hb
    obtain ⟨_, e1, i1⟩ := transpileExpr_twice fn hf.1 hb.1
    obtain ⟨_, e2, i2⟩ := transpileExprs_twice args hf.2 hb.2
    simp [e1, e2, i1, i2]
  | .ReturnStmt results, hf, hb => by
    obtain ⟨_, e1, i1⟩ := transpileExprs_twice results (by simpa [Stmt.flat] using hf)
      (by simpa [Stmt.bodies] using hb)
    simp [e1, i1]
  | .BlockStmt list, hf, hb => by
    obtain ⟨_, e1, i1⟩ := transpileStmts_twice list (by simpa [Stmt.flat] using hf)
      (by simpa [Stmt.bodies] using hb)
    simp [e1, i1]
  | .IfStmt init cond (some list) els, hf, hb => by
    simp only [Stmt.flat, Bool.and_eq_true] at hf
    simp only [Stmt.bodies, Bool.and_eq_true] at hb
    obtain ⟨_, e1, i1⟩ := transpileStmt_twice init hf.1.1.1 hb.1.1.1
    obtain ⟨_, e2, i2⟩ := transpileExpr_twice cond hf.1.1.2 hb.1.1.2
    obtain ⟨_, e3, i3⟩ := transpileStmts_twice list hf.1.2 hb.1.2
    obtain ⟨_, e4, i4⟩ := transpileStmt_twice els hf.2 hb.2
    simp [e1, e2, e3, e4, i1, i2, i3, i4]
  | .IfStmt _ _ none _, _, hb => by simp [Stmt.bodies] at hb
  | .SwitchStmt init tag (some list), hf, hb => by
    simp only [Stmt.flat, Bool.and_eq_true] at hf
    simp only [Stmt.bodies, Bool.and_eq_true] at hb
    obtain ⟨_, e1, i1⟩ := transpileStmt_twice init hf.1.1 hb.1.1
    obtain ⟨_, e2, i2⟩ := transpileExpr_twice tag hf.1.2 hb.1.2
    obtain ⟨_, e3, i3⟩ := transpileStmts_twice list hf.2 hb.2
    simp [e1, e2, e3, i1, i2, i3]
  | .SwitchStmt _ _ none, _, hb => by simp [Stmt.bodies] at hb
  | .CaseClause list body, hf, hb => by
    simp only [Stmt.flat, Bool.and_eq_true] at hf
    simp only [Stmt.bodies, Bool.and_eq_true] at hb
    obtain ⟨_, e1, i1⟩ := transpileExprs_twice list hf.1 hb.1
    obtain ⟨_, e2, i2⟩ := transpileStmts_twice body hf.2 hb.2
    simp [e1, e2, i1, i2]
  | .TypeSwitchStmt init assign (some list), hf, hb => by
    simp only [Stmt.flat, Bool.and_eq_true] at hf
    simp only [Stmt.bodies, Bool.and_eq_true] at hb
    obtain ⟨_, e1, i1⟩ := transpileStmt_twice init hf.1.1 hb.1.1
    obtain ⟨_, e2, i2⟩ := transpileStmt_twice assign hf.1.2 hb.1.2
    obtain ⟨_, e3, i3⟩ := transpileStmts_twice list hf.2 hb.2
    simp [e1, e2, e3, i1, i2, i3]
  | .TypeSwitchStmt _ _ none, _, hb => by simp [Stmt.bodies] at hb
  | .SelectStmt (some list), hf, hb => by
    obtain ⟨_, e1, i1⟩ := transpileStmts_twice list (by simpa [Stmt.flat] using hf)
      (by simpa [Stmt.bodies] using hb)
    simp [e1, i1]
  | .SelectStmt none, _, hb => by simp [Stmt.bodies] at hb
  | .CommClause _ _, _, _ => ⟨_, rfl, rfl⟩
  | .ForStmt init cond post (some list), hf, hb => by
    simp only [Stmt.flat, Bool.and_eq_true] at hf
    simp only [Stmt.bodies, Bool.and_eq_true] at hb
    obtain ⟨_, e1, i1⟩ := transpileStmt_twice init hf.1.1.1 hb.1.1.1
    obtain ⟨_, e2, i2⟩ := transpileExpr_twice cond hf.1.1.2 hb.1.1.2
    obtain ⟨_, e3, i3⟩ := transpileStmt_twice post hf.1.2 hb.1.2
    obtain ⟨_, e4, i4⟩ := transpileStmts_twice list hf.2 hb.2
    simp [e1, e2, e3, e4, i1, i2, i3, i4]
  | .ForStmt _ _ _ none, _, hb => by simp [Stmt.bodies] at hb
  | .RangeStmt _ _ _ (some list), hf, hb => by
    simp only [Stmt.flat, Bool.and_eq_true] at hf
    simp only [Stmt.bodies, Bool.and_eq_true] at hb
    obtain ⟨_, e1, i1⟩ := transpileStmts_twice list hf.2 hb.2
    simp [e1, i1]
  | .RangeStmt _ _ _ none, _, hb => by simp [Stmt.bodies] at hb
end

theorem transpileDecls_twice :
    (ds : List Decl) → flatDecls ds = true → bodiesDecls ds = true →
      ∃ ds', transpileDecls ds = some ds' ∧ transpileDecls ds' = some ds'
  | [], _, _ => ⟨_, rfl, rfl⟩
  | d :: rest, hf, hb => by
    simp only [flatDecls, Bool.and_eq_true] at hf
    simp only [bodiesDecls, Bool.and_eq_true] at hb
    obtain ⟨_, e1, i1⟩ := transpileDecl_twice d hf.1 hb.1
    obtain ⟨_, e2, i2⟩ := transpileDecls_twice rest hf.2 hb.2
    simp [e1, e2, i1, i2]

/-! ## The claims on select, embedded expressions, the import table and absent slots -/

/-- C11, at `select { case ch <- $"n={n}": out <- $"n={n}" }`: `transpileStmt`
returns the select statement as it was, the literal of the communication
statement and the literal of the clause body still in place. The walker ranges
over the clauses, but `transpileStmt` has no case for a `CommClause`. -/
theorem select_clause_keeps_literal :
    transpileStmt selectStmt = some selectStmt ∧ selectStmt.hasInterp = true :=
  ⟨rfl, rfl⟩

/-- C12, as stated, fails: in the call written for `$"{run(func() { ch <-
$"n={n}" })}"` the argument still holds the literal of the closure body, and
in the call written for `$"{run($"n={n}")}"` it still holds the literal that
is the argument of `run`. -/
theorem embedded_literal_survives :
    transpileExpr (.InterpLit [.mk runClosure ""])
        = some (.CallExpr (.BasicLit .STRING "fmt.Sprintf")
            [.BasicLit .STRING "%v", runClosure])
      ∧ runClosure.hasInterp = true
      ∧ transpileExpr (.InterpLit [.mk (.CallExpr (.Ident "run") [.InterpLit nSegments]) ""])
        = some (.CallExpr (.BasicLit .STRING "fmt.Sprintf")
            [.BasicLit .STRING "%v", .CallExpr (.Ident "run") [.InterpLit nSegments]]) :=
  ⟨rfl, rfl, rfl⟩

/-- C12, amended: when `transpileExpr` lowers an interpolation literal, the
embedded expressions of its segments are not walked: an `InterpLit` occurs in
the call it writes exactly when one occurs in an embedded expression. -/
theorem lowerInterpLit_keeps_embedded (segments : List Segment) :
    ∃ c, transpileExpr (.InterpLit segments) = some c
      ∧ c.hasInterp = hasInterpSegments segments :=
  ⟨lowerInterpLit segments, rfl, hasInterp_lowerInterpLit segments⟩

/-- C13, at the import table of a file that imports the plain `"os"`:
`addImport` of `fmt` does not append an entry, and with an entry named `fmt`
further down it does not return the table either. In both cases the loop
dereferences the nil `Name` of the first entry. -/
theorem addImport_stops_at_unnamed_entry :
    hasEntry "fmt" osImports = false ∧ addImport osImports "fmt" = none
      ∧ hasEntry "fmt" (osImports ++ namedImports) = true
      ∧ addImport (osImports ++ namedImports) "fmt" = none :=
  ⟨rfl, rfl, rfl, rfl⟩

/-- C14: calling `addImport` with the same name a second time gives what the
first call gave; and on a table all of whose entries have a name both calls
return, the second returning the table of the first. -/
theorem addImport_idempotent (imports : List ImportSpec) (imp : String) :
    (addImport imports imp).bind (fun t => addImport t imp) = addImport imports imp
      ∧ (allNamed imports = true →
          ∃ t, addImport imports imp = some t ∧ addImport t imp = some t) := by
  refine ⟨addImport_addImport imports imp, fun h => ?_⟩
  have e1 := addImport_named imports imp h
  have e2 := addImport_addImport imports imp
  rw [e1] at e2
  exact ⟨_, e1, by simpa using e2⟩

theorem addImport_idempotent_witness :
    allNamed namedImports = true
      ∧ ∃ t, addImport namedImports "os" = some t ∧ addImport t "os" = some t :=
  ⟨rfl, (addImport_idempotent namedImports "os").2 rfl⟩

/-- C15: on an if statement without init and else, a for statement without
init, condition and post, a switch statement without init and tag and a
type-switch statement without init, each with its body, `transpileStmt`
returns; the absent slots are still absent and the condition, the assign
statement and the body are what the walker makes of them. -/
theorem transpileStmt_absent_slots (cond : Expr) (assign : Stmt) (list : List Stmt)
    (hc : cond.bodies = true) (ha : assign.bodies = true) (hl : bodiesStmts list = true) :
    ∃ cond' assign' list',
      transpileExpr cond = some cond' ∧ transpileStmt assign = some assign'
      ∧ transpileStmts list = some list'
      ∧ transpileStmt (.IfStmt .nil cond (some list) .nil)
          = some (.IfStmt .nil cond' (some list') .nil)
      ∧ transpileStmt (.ForStmt .nil .nil .nil (some list))
          = some (.ForStmt .nil .nil .nil (some list'))
      ∧ transpileStmt (.SwitchStmt .nil .nil (some list))
          = some (.SwitchStmt .nil .nil (some list'))
      ∧ transpileStmt (.TypeSwitchStmt .nil assign (some list))
          = some (.TypeSwitchStmt .nil assign' (some list')) := by
  obtain ⟨cond', e1⟩ := transpileExpr_total cond hc
  obtain ⟨assign', e2⟩ := transpileStmt_total assign ha
  obtain ⟨list', e3⟩ := transpileStmts_total list hl
  exact ⟨cond', assign', list', e1, e2, e3, by simp [e1, e3], by simp [e3], by simp [e3],
    by simp [e2, e3]⟩

theorem transpileStmt_absent_slots_witness :
    ∃ cond' assign' list',
      transpileExpr (.InterpLit nSegments) = some cond'
      ∧ transpileStmt (.AssignStmt [.Ident "v"] .DEFINE [.Ident "x"]) = some assign'
      ∧ transpileStmts [.SendStmt (.Ident "ch") (.InterpLit nSegments)] = some list'
      ∧ transpileStmt (.IfStmt .nil (.InterpLit nSegments)
            (some [.SendStmt (.Ident "ch") (.InterpLit nSegments)]) .nil)
          = some (.IfStmt .nil cond' (some list') .nil)
      ∧ transpileStmt (.ForStmt .nil .nil .nil
            (some [.SendStmt (.Ident "ch") (.InterpLit nSegments)]))
          = some (.ForStmt .nil .nil .nil (some list'))
      ∧ transpileStmt (.SwitchStmt .nil .nil
            (some [.SendStmt (.Ident "ch") (.InterpLit nSegments)]))
          = some (.SwitchStmt .nil .nil (some list'))
      ∧ transpileStmt (.TypeSwitchStmt .nil (.AssignStmt [.Ident "v"] .DEFINE [.Ident "x"])
            (some [.SendStmt (.Ident "ch") (.InterpLit nSegments)]))
          = some (.TypeSwitchStmt .nil assign' (some list')) :=
  transpileStmt_absent_slots (.InterpLit nSegments)
    (.AssignStmt [.Ident "v"] .DEFINE [.Ident "x"])
    [.SendStmt (.Ident "ch") (.InterpLit nSegments)] rfl rfl rfl

/-- C16, at `func f()`: `transpileDecl` on a function declaration whose `Body`
is nil does not complete, it dereferences the nil `Body`; so does the pass on
a file that holds the declaration. -/
theorem funcDecl_without_body_panics :
    transpileDecl (.FuncDecl "f" none) = none ∧ processFile bodylessFile = none :=
  ⟨rfl, rfl⟩

/-- C17, as stated, fails: on a tree with an if statement without body the
pass ends in the nil dereference, the outcome it also has on a for statement
without body elsewhere in the tree and on the well-formed `func f()`. No error
value is built, and nothing in the outcome tells the three apart. -/
theorem malformed_tree_is_not_reported :
    processFile malformedIfFile = none ∧ processFile malformedForFile = none
      ∧ processFile bodylessFile = none :=
  ⟨rfl, rfl, rfl⟩

/-- C17, amended: when the walker meets an if, switch, type-switch, select,
for or range statement or a function literal with no body block, anywhere on
its way through the declarations of the file, the pass does not return a
rewritten tree: it ends in the run-time panic of the nil dereference. -/
theorem walker_panics_without_body (file : File) (h : file.meetsNilBody = true) :
    processFile file = none := by
  simp [processFile, transpileDecls_nilBody file.Decls h]

theorem walker_panics_without_body_witness :
    deepMalformedFile.meetsNilBody = true ∧ processFile deepMalformedFile = none :=
  ⟨rfl, walker_panics_without_body deepMalformedFile rfl⟩

/-- C18: for every interpolation literal none of whose expression segments
carries a directive, the format string of the call is the text of each text
segment, verbatim, and `%v` for each expression segment, one after the other
in the order of the segments. -/
theorem lowerInterpLit_default_format (segments : List Segment)
    (h : noDirective segments = true) :
    transpileExpr (.InterpLit segments)
      = some (.CallExpr (.BasicLit .STRING "fmt.Sprintf")
          (.BasicLit .STRING (defaultFormat segments) :: embedded segments)) := by
  simp [lowerInterpLit_eq, foldl_segmentStep_format segments h]

theorem lowerInterpLit_default_format_witness :
    noDirective percentSegments = true
      ∧ defaultFormat percentSegments = "100% %v of it"
      ∧ transpileExpr (.InterpLit percentSegments)
        = some (.CallExpr (.BasicLit .STRING "fmt.Sprintf")
            (.BasicLit .STRING (defaultFormat percentSegments) :: embedded percentSegments)) :=
  ⟨by decide, by decide, lowerInterpLit_default_format percentSegments (by decide)⟩

/-- C19, as stated, fails: on `func main() { ch <- $"{run(func() { ch <-
$"n={n}" })}" }` the first pass lowers the outer literal and leaves the
literal of the closure in its argument; a second pass walks that argument and
lowers it, so the second pass changes the tree. -/
theorem second_pass_changes_tree :
    processFile nestedFile = some nestedFileOnce
      ∧ processFile nestedFileOnce = some nestedFileTwice
      ∧ nestedFileOnce.hasInterp = true ∧ nestedFileTwice.hasInterp = false :=
  ⟨rfl, rfl, rfl, rfl⟩

/-- C19, amended: for every file in which no interpolation literal is nested
inside an embedded expression of another and every body is present, the pass
returns a tree on which a second pass changes nothing. -/
theorem processFile_twice (file : File) (hf : file.flat = true) (hb : file.bodies = true) :
    ∃ file', processFile file = some file' ∧ processFile file' = some file' := by
  obtain ⟨ds, e1, i1⟩ := transpileDecls_twice file.Decls hf hb
  exact ⟨{ Decls := ds, Imports := file.Imports }, by simp [processFile, e1],
    by simp [processFile, i1]⟩

theorem processFile_twice_witness :
    coveredFile.flat = true ∧ coveredFile.bodies = true ∧ coveredFile.hasInterp = true
      ∧ ∃ file', processFile coveredFile = some file' ∧ processFile file' = some file' :=
  ⟨rfl, rfl, rfl, processFile_twice coveredFile rfl rfl⟩

/-- C20: on every import table whose first entry has no `Name`, as the entry
of a plain `"os"` has none, `addImport` does not complete for any name: the
loop evaluates `i.Name.Name` on the nil `Name`. -/
theorem addImport_unnamed_entry_panics (path : Option String) (rest : List ImportSpec)
    (imp : String) :
    addImport ({ Name := none, Path := path } :: rest) imp = none := by
  simp [addImport, findImport]

end Goplusplus
